import Mathlib

/-!
# gocfg: a key/value configuration file loader

A verification development over the Go package `gocfg` (`config.go`).

Modelling decisions.

* A Go `string` is modelled as the list of the Unicode code points of a valid
  UTF-8 text (`GoString`).  The separators the source uses (newline, `=`, `#`)
  are ASCII, so splitting on them is the same on bytes and on code points.
* `map[string]string` is a finite partial function, modelled by
  `GoString → Option GoString`; `properties[key] = value` is a point update.
* An `error` is `Option GoString`: `none` is `nil`, `some msg` carries the text.
* The Go standard library functions the source calls (`strings.TrimSpace`,
  `strings.Split`, `strings.SplitN`, `strings.HasPrefix`, `strings.EqualFold`,
  `strconv.Atoi`, `fmt.Errorf`) are modelled after their documented behaviour
  and their implementation in the Go distribution.
* The file system (`ioutil.ReadFile`), the width of `int`, the type `float64`
  with the reading of numbers into it, and the part of the Unicode
  case-folding table that does not touch ASCII are parameters.  Of
  `strconv.ParseFloat` the reading of the special values (NaN, infinities)
  and of the decimal literals is modelled, as it needs no floating-point
  arithmetic; the conversion of the digits is a parameter.
-/

namespace Gocfg

/-- A Go string holding UTF-8 text, as the sequence of its code points. -/
abbrev GoString := List Char

/-! ## `unicode` and `strings` -/

/-- Go `unicode.IsSpace`: the Latin-1 spaces and the `White_Space` property. -/
def IsSpace (r : Char) : Bool :=
  let n := r.toNat
  if n ≤ 0xFF then
    n == 0x09 || n == 0x0A || n == 0x0B || n == 0x0C || n == 0x0D || n == 0x20
      || n == 0x85 || n == 0xA0
  else
    n == 0x1680 || (0x2000 ≤ n && n ≤ 0x200A) || n == 0x2028 || n == 0x2029
      || n == 0x202F || n == 0x205F || n == 0x3000

/-- Go `strings.TrimLeftFunc(s, f)`. -/
def TrimLeftFunc (s : GoString) (f : Char → Bool) : GoString :=
  s.dropWhile f

/-- Go `strings.TrimRightFunc(s, f)`. -/
def TrimRightFunc (s : GoString) (f : Char → Bool) : GoString :=
  (s.reverse.dropWhile f).reverse

/-- Go `strings.TrimSpace(s)`: `TrimFunc(s, unicode.IsSpace)`. -/
def TrimSpace (s : GoString) : GoString :=
  TrimRightFunc (TrimLeftFunc s IsSpace) IsSpace

/-- Go `strings.HasPrefix(s, p)`. -/
def HasPrefix (s p : GoString) : Bool :=
  p.isPrefixOf s

/-- Go `strings.Index(s, sep)` for a one-character separator; `none` is `-1`. -/
def Index : GoString → Char → Option Nat
  | [], _ => none
  | c :: cs, sep => if c = sep then some 0 else (Index cs sep).map (· + 1)

/-- Go `strings.Count(s, sep)` for a one-character separator. -/
def Count (s : GoString) (sep : Char) : Nat :=
  s.count sep

/-- The loop of Go `strings.genSplit`: at most `n` further cuts at `sep`. -/
def genSplit (sep : Char) : Nat → GoString → List GoString
  | 0, s => [s]
  | n + 1, s =>
    match Index s sep with
    | none => [s]
    | some m => s.take m :: genSplit sep n (s.drop (m + 1))

/-- Go `strings.Split(s, sep)` for a one-character separator. -/
def Split (s : GoString) (sep : Char) : List GoString :=
  genSplit sep (Count s sep) s

/-- Go `strings.SplitN(s, sep, n)` for a one-character separator and `n ≥ 0`. -/
def SplitN (s : GoString) (sep : Char) (n : Nat) : List GoString :=
  if n = 0 then []
  else genSplit sep (min n (s.length + 1) - 1) s

/-- The runs of Go `unicode.SimpleFold` through ASCII.  For `sr < tr` with
`sr` an ASCII code point and `tr` not, `tr` is reached from `sr` exactly for
the Kelvin sign (from `K`, `k`) and the long s (from `S`, `s`). -/
def asciiOrbit (sr tr : Char) : Bool :=
  ((sr == 'K' || sr == 'k') && tr.toNat == 0x212A)
    || ((sr == 'S' || sr == 's') && tr.toNat == 0x017F)

/-- One step of the rune loop of Go `strings.EqualFold`.  `orbit sr tr` stands
for the case-folding table on pairs of non-ASCII code points `sr < tr`. -/
def foldRune (orbit : Char → Char → Bool) (a b : Char) : Bool :=
  if a = b then true
  else
    let sr := if b.toNat < a.toNat then b else a
    let tr := if b.toNat < a.toNat then a else b
    if tr.toNat < 0x80 then
      decide (0x41 ≤ sr.toNat ∧ sr.toNat ≤ 0x5A ∧ tr.toNat = sr.toNat + 0x20)
    else if sr.toNat < 0x80 then asciiOrbit sr tr
    else orbit sr tr

/-- Go `strings.EqualFold(s, t)`: equality under simple Unicode case folding,
rune by rune. -/
def EqualFold (orbit : Char → Char → Bool) : GoString → GoString → Bool
  | [], [] => true
  | [], _ :: _ => false
  | _ :: _, [] => false
  | a :: s, b :: t => foldRune orbit a b && EqualFold orbit s t

/-! ## `strconv` and `fmt` -/

/-- The two causes of a Go `strconv.NumError`. -/
inductive NumError where
  | ErrSyntax
  | ErrRange
  deriving DecidableEq, Repr

/-- ASCII decimal digit test, `'0' <= c && c <= '9'`. -/
def isDigit (c : Char) : Bool :=
  0x30 ≤ c.toNat && c.toNat ≤ 0x39

/-- The loop of Go `strconv.ParseUint(s, 10, bitSize)` over `uint64`. -/
def parseUintLoop (maxVal : Nat) : GoString → Nat → Nat × Option NumError
  | [], n => (n, none)
  | c :: cs, n =>
    if isDigit c then
      let d := c.toNat - 0x30
      if n ≥ (2 ^ 64 - 1) / 10 + 1 then (maxVal, some NumError.ErrRange)
      else
        let n10 := n * 10 % 2 ^ 64
        let n1 := (n10 + d) % 2 ^ 64
        if n1 < n10 ∨ n1 > maxVal then (maxVal, some NumError.ErrRange)
        else parseUintLoop maxVal cs n1
    else (0, some NumError.ErrSyntax)

/-- Go `strconv.ParseUint(s, 10, bitSize)`. -/
def ParseUint (s : GoString) (bitSize : Nat) : Nat × Option NumError :=
  if s = [] then (0, some NumError.ErrSyntax)
  else parseUintLoop (2 ^ bitSize - 1) s 0

/-- Go `strconv.ParseInt(s, 10, bitSize)` with `bitSize` already resolved. -/
def ParseInt (s : GoString) (bitSize : Nat) : Int × Option NumError :=
  match s with
  | [] => (0, some NumError.ErrSyntax)
  | c :: rest =>
    let neg := c == '-'
    let body := if c == '+' || c == '-' then rest else s
    let (un, err) := ParseUint body bitSize
    if err = some NumError.ErrSyntax then (0, err)
    else
      let cutoff := 2 ^ (bitSize - 1)
      if !neg && un ≥ cutoff then ((cutoff : Int) - 1, some NumError.ErrRange)
      else if neg && un > cutoff then (-(cutoff : Int), some NumError.ErrRange)
      else (if neg then -(un : Int) else (un : Int), none)

/-- The fast path loop of Go `strconv.Atoi`. -/
def atoiLoop : GoString → Int → Option Int
  | [], n => some n
  | c :: cs, n => if isDigit c then atoiLoop cs (n * 10 + ((c.toNat - 0x30 : Nat) : Int)) else none

/-- Go `strconv.Atoi(s)` on a platform whose `int` has `intSize` bits. -/
def Atoi (intSize : Nat) (s : GoString) : Int × Option NumError :=
  let sLen := s.length
  if (intSize = 32 ∧ 0 < sLen ∧ sLen < 10) ∨ (intSize = 64 ∧ 0 < sLen ∧ sLen < 19) then
    match s with
    | [] => (0, some NumError.ErrSyntax)
    | c :: rest =>
      let body := if c == '-' || c == '+' then rest else s
      if body.length < 1 then (0, some NumError.ErrSyntax)
      else
        match atoiLoop body 0 with
        | none => (0, some NumError.ErrSyntax)
        | some n => (if c == '-' then -n else n, none)
  else ParseInt s intSize

/-- Decimal digit character. -/
def digitChar (d : Nat) : Char :=
  Char.ofNat (0x30 + d)

/-- Go `strconv.Itoa` / the verb `%d`: decimal rendering of an integer. -/
def Itoa (n : Int) : GoString :=
  let ds := ((Nat.digits 10 n.natAbs).reverse.map digitChar)
  let body := if ds = [] then ['0'] else ds
  if n < 0 then '-' :: body else body

/-- The verb `%t`. -/
def fmtBool (b : Bool) : GoString :=
  if b then "true".toList else "false".toList

/-- Go `strconv.commonPrefixLenIgnoreCase(s, p)`: the length of the longest
common start of `s` and the lower-case `p`, the ASCII capital letters of `s`
lowered. -/
def commonPrefixLenIgnoreCase : GoString → GoString → Nat
  | c :: s, p :: ps =>
    if (if 0x41 ≤ c.toNat ∧ c.toNat ≤ 0x5A then c.toNat + 0x20 else c.toNat) = p.toNat then
      1 + commonPrefixLenIgnoreCase s ps
    else 0
  | _, _ => 0

/-- Go `strconv.special(s)`: the special values `ParseFloat` reads at the
start of `s`, with the number of characters read; `none` is `ok == false`.
`inf neg` stands for `math.Inf` of either sign and `nan` for `math.NaN()`. -/
def special {F : Type} (inf : Bool → F) (nan : F) (s : GoString) : Option (F × Nat) :=
  match s with
  | [] => none
  | c :: rest =>
    if c = '+' ∨ c = '-' then
      let n := commonPrefixLenIgnoreCase rest "infinity".toList
      let n := if 3 < n ∧ n < 8 then 3 else n
      if n = 3 ∨ n = 8 then some (inf (c == '-'), 1 + n) else none
    else if c = 'i' ∨ c = 'I' then
      let n := commonPrefixLenIgnoreCase s "infinity".toList
      let n := if 3 < n ∧ n < 8 then 3 else n
      if n = 3 ∨ n = 8 then some (inf false, n) else none
    else if c = 'n' ∨ c = 'N' then
      if commonPrefixLenIgnoreCase s "nan".toList = 3 then some (nan, 3) else none
    else none

/-- The base prefix test of Go `strconv.readFloat`, made after the optional
sign: `i+2 < len(s) && s[i] == '0' && lower(s[i+1]) == 'x'`. -/
def hasHexPrefix (s : GoString) : Bool :=
  let body := match s with
    | [] => []
    | c :: r => if c = '+' ∨ c = '-' then r else c :: r
  match body with
  | z :: x :: _ :: _ => z == '0' && (x == 'x' || x == 'X')
  | _ => false

/-- The digit loop of Go `strconv.readFloat` in base 10 on a text without `_`:
digits and at most one `.` are read; the result is the unread rest and the
flag `sawdigits`. -/
def readFloatDigits : GoString → Bool → Bool → GoString × Bool
  | [], _, sawdigits => ([], sawdigits)
  | c :: cs, sawdot, sawdigits =>
    if c = '.' then
      if sawdot then (c :: cs, sawdigits) else readFloatDigits cs true sawdigits
    else if isDigit c then readFloatDigits cs sawdot true
    else (c :: cs, sawdigits)

/-- The optional exponent of Go `strconv.readFloat` in base 10 on a text
without `_`: after `e` or `E` an optional sign and one or more digits are
read.  The result is the unread rest, and `none` when `readFloat` returns
without `ok`. -/
def readFloatExponent (rest : GoString) : Option GoString :=
  match rest with
  | [] => some []
  | e :: r1 =>
    if e = 'e' ∨ e = 'E' then
      match r1 with
      | [] => none
      | sg :: r2 =>
        match (if sg = '+' ∨ sg = '-' then r2 else sg :: r2) with
        | [] => none
        | d :: r3 => if isDigit d then some ((d :: r3).dropWhile isDigit) else none
    else some (e :: r1)

/-- Go `strconv.readFloat(s)` in base 10 on a text without `_`: the optional
sign, the digits with an optional `.`, and the optional exponent.  The result
is the unread rest of `s` when `ok`, and `none` when not `ok`; the mantissa and
exponent it also computes only feed the conversion. -/
def readFloat (s : GoString) : Option GoString :=
  match s with
  | [] => none
  | c :: r =>
    if (readFloatDigits (if c = '+' ∨ c = '-' then r else c :: r) false false).2 = false then
      none
    else
      readFloatExponent (readFloatDigits (if c = '+' ∨ c = '-' then r else c :: r) false false).1

/-- Go `strconv.ParseFloat(s, 64)`, `none` on an error.  A special value read
by `special` is the result when it is the whole of `s`, and a syntax error
otherwise.  A text in base 10 without `_` is read by `readFloat`; it is a
syntax error unless it is read to its end, and then `atofDecimal s` stands for
the conversion: the nearest `float64` and whether it is out of range (a range
error).  For a text with `_` or with the prefix `0x`, whose reading differs
between versions of the library, `atofOther` stands for the result. -/
def ParseFloat {F : Type} (inf : Bool → F) (nan : F) (atofDecimal : GoString → F × Bool)
    (atofOther : GoString → Option F) (s : GoString) : Option F :=
  match special inf nan s with
  | some (f, n) => if n = s.length then some f else none
  | none =>
    if '_' ∈ s ∨ hasHexPrefix s = true then atofOther s
    else
      match readFloat s with
      | none => none
      | some rest =>
        if rest ≠ [] then none
        else if (atofDecimal s).2 = true then none
        else some (atofDecimal s).1

/-! ## The package -/

/-- The Go type `Configuration`. -/
structure Configuration where
  properties : GoString → Option GoString

/-- The body of the line loop of `loadPropertyFile`. -/
def loadLine (properties : GoString → Option GoString) (line : GoString) :
    GoString → Option GoString :=
  let tLine := TrimSpace line
  if tLine.length > 0 ∧ !HasPrefix tLine ['#'] then
    let parts := SplitN tLine '=' 2
    if parts.length = 2 then
      let key := TrimSpace (parts.getD 0 [])
      let value := TrimSpace (parts.getD 1 [])
      if key.length > 0 then Function.update properties key (some value)
      else properties
    else properties
  else properties

/-- Go `loadPropertyFile`.  `readFile` is `ioutil.ReadFile`: it gives the
content of the file or the text of the read error. -/
def loadPropertyFile (readFile : GoString → Except GoString GoString) (fileName : GoString) :
    (GoString → Option GoString) × Option GoString :=
  let properties : GoString → Option GoString := fun _ => none
  match readFile fileName with
  | .error fileerr =>
    (properties, some ("unable to load properties from ".toList ++ fileName
      ++ ". Reason: ".toList ++ fileerr))
  | .ok b =>
    let lines := Split b '\n'
    (lines.foldl loadLine properties, none)

/-- Go `LoadConfiguration`. -/
def LoadConfiguration (readFile : GoString → Except GoString GoString) (fileName : GoString) :
    Configuration × Option GoString :=
  let r := loadPropertyFile readFile fileName
  (⟨r.1⟩, r.2)

/-- Go `(*Configuration).HasKey`. -/
def Configuration.HasKey (c : Configuration) (key : GoString) : Bool :=
  (c.properties key).isSome

/-- Go `(*Configuration).GetString`. -/
def Configuration.GetString (c : Configuration) (key defaultValue : GoString) : GoString :=
  match c.properties key with
  | none => defaultValue
  | some value => value

/-- Go `(*Configuration).GetInt`, for an `int` of `intSize` bits. -/
def Configuration.GetInt (intSize : Nat) (c : Configuration) (key : GoString)
    (defaultValue : Int) : Int × Option GoString :=
  match c.properties key with
  | none => (defaultValue, none)
  | some value =>
    let (intValue, valueerr) := Atoi intSize value
    if valueerr ≠ none then
      (defaultValue, some ("property ".toList ++ key
        ++ " does not have a valid integer value. Using default ".toList ++ Itoa defaultValue))
    else (intValue, none)

/-- Go `(*Configuration).GetFloat`.  `F` stands for `float64`, `ParseFloat s`
for `strconv.ParseFloat(s, 64)` (`none` on an error) and `fmtFloat` for the
verb `%f`. -/
def Configuration.GetFloat {F : Type} (ParseFloat : GoString → Option F)
    (fmtFloat : F → GoString) (c : Configuration) (key : GoString) (defaultValue : F) :
    F × Option GoString :=
  match c.properties key with
  | none => (defaultValue, none)
  | some value =>
    match ParseFloat value with
    | none =>
      (defaultValue, some ("property ".toList ++ key
        ++ " does not have a valid float value. Using default ".toList ++ fmtFloat defaultValue))
    | some floatValue => (floatValue, none)

/-- Go `boolTrueValues`. -/
def boolTrueValues : List GoString :=
  ["on".toList, "true".toList, "yes".toList, "enable".toList, "enabled".toList, "1".toList]

/-- Go `boolFalseValues`. -/
def boolFalseValues : List GoString :=
  ["off".toList, "false".toList, "no".toList, "disable".toList, "disabled".toList, "0".toList]

/-- Go `(*Configuration).GetBool`. -/
def Configuration.GetBool (orbit : Char → Char → Bool) (c : Configuration) (key : GoString)
    (defaultValue : Bool) : Bool × Option GoString :=
  match c.properties key with
  | none => (defaultValue, none)
  | some value =>
    if boolTrueValues.any (fun trueValue => EqualFold orbit value trueValue) then (true, none)
    else if boolFalseValues.any (fun falseValue => EqualFold orbit value falseValue) then
      (false, none)
    else
      (defaultValue, some ("property ".toList ++ key
        ++ " does not have a valid bool value. Using default ".toList ++ fmtBool defaultValue))

/-! ## Words of the specification -/

/-- The text of a trimmed line before its first `=`. -/
def beforeFirstEq (t : GoString) : GoString :=
  t.takeWhile (fun c => c != '=')

/-- The text of a trimmed line after its first `=`. -/
def afterFirstEq (t : GoString) : GoString :=
  (t.dropWhile (fun c => c != '=')).drop 1

/-- A key/value line: once trimmed it is non-empty, does not begin with `#`,
contains `=`, and the trimmed text `k` before its first `=` is non-empty; `v`
is the trimmed text after that `=`. -/
def IsKeyValueLine (line k v : GoString) : Prop :=
  TrimSpace line ≠ [] ∧ (TrimSpace line).head? ≠ some '#' ∧ '=' ∈ TrimSpace line
    ∧ k = TrimSpace (beforeFirstEq (TrimSpace line)) ∧ k ≠ []
    ∧ v = TrimSpace (afterFirstEq (TrimSpace line))

/-- The entry a line contributes, if it is a key/value line. -/
def lineEntry (line : GoString) : Option (GoString × GoString) :=
  let t := TrimSpace line
  if t ≠ [] ∧ t.head? ≠ some '#' ∧ '=' ∈ t then
    if TrimSpace (beforeFirstEq t) ≠ [] then
      some (TrimSpace (beforeFirstEq t), TrimSpace (afterFirstEq t))
    else none
  else none

/-- The key of the entry a line contributes, if any. -/
def lineKey (line : GoString) : Option GoString :=
  (lineEntry line).map Prod.fst

instance instDecidableIsKeyValueLine (line k v : GoString) : Decidable (IsKeyValueLine line k v) := by
  unfold IsKeyValueLine
  infer_instance

/-- A line that contributes nothing: blank, a comment, without `=`, or with an
empty key part. -/
def IsSkippedLine (line : GoString) : Prop :=
  TrimSpace line = [] ∨ (TrimSpace line).head? = some '#' ∨ '=' ∉ TrimSpace line
    ∨ TrimSpace (beforeFirstEq (TrimSpace line)) = []

instance instDecidableIsSkippedLine (line : GoString) : Decidable (IsSkippedLine line) := by
  unfold IsSkippedLine
  infer_instance

/-- A whitespace string: every code point of it is a space for `TrimSpace`. -/
def IsWhitespace (w : GoString) : Prop :=
  ∀ c ∈ w, IsSpace c = true

instance instDecidableIsWhitespace (w : GoString) : Decidable (IsWhitespace w) := by
  unfold IsWhitespace
  infer_instance

/-- A string with no leading and no trailing whitespace. -/
def NoOuterSpace (s : GoString) : Prop :=
  (∀ c, s.head? = some c → IsSpace c = false) ∧ (∀ c, s.getLast? = some c → IsSpace c = false)

instance instDecidableNoOuterSpace (s : GoString) : Decidable (NoOuterSpace s) :=
  decidable_of_iff ((s.head?.all fun c => !IsSpace c) = true
      ∧ (s.getLast?.all fun c => !IsSpace c) = true) (by
    unfold NoOuterSpace
    cases s.head? <;> cases s.getLast? <;> simp)

/-- The value of an ASCII decimal digit. -/
def digitVal (c : Char) : Nat :=
  c.toNat - 0x30

/-- The number a string of decimal digits denotes, most significant first. -/
def digitsValue (ds : GoString) : Nat :=
  Nat.ofDigits 10 (ds.reverse.map digitVal)

/-- A string without its optional single leading `+` or `-`. -/
def stripSign : GoString → GoString
  | [] => []
  | c :: r => if c = '+' ∨ c = '-' then r else c :: r

/-- A signed decimal literal: an optional single `+` or `-` followed by one or
more ASCII decimal digits. -/
def IsIntLiteral (s : GoString) : Prop :=
  stripSign s ≠ [] ∧ ∀ c ∈ stripSign s, isDigit c = true

instance instDecidableIsIntLiteral (s : GoString) : Decidable (IsIntLiteral s) := by
  unfold IsIntLiteral
  infer_instance

/-- The integer a signed decimal literal denotes. -/
def literalValue (s : GoString) : Int :=
  if s.head? = some '-' then -(digitsValue (stripSign s) : Int)
  else (digitsValue (stripSign s) : Int)

/-- The integer `n` fits in an `int` of `intSize` bits. -/
def FitsInt (intSize : Nat) (n : Int) : Prop :=
  -(2 ^ (intSize - 1) : Int) ≤ n ∧ n < 2 ^ (intSize - 1)

instance instDecidableFitsInt (intSize : Nat) (n : Int) : Decidable (FitsInt intSize n) := by
  unfold FitsInt
  infer_instance

/-- The code point of a character once an ASCII capital letter is lowered. -/
def lowerASCII (c : Char) : Nat :=
  if 0x41 ≤ c.toNat ∧ c.toNat ≤ 0x5A then c.toNat + 0x20 else c.toNat

/-- Two strings are equal as a whole, ignoring only the case of ASCII letters. -/
def EqIgnoringASCIICase (s t : GoString) : Prop :=
  s.map lowerASCII = t.map lowerASCII

instance instDecidableEqIgnoringASCIICase (s t : GoString) :
    Decidable (EqIgnoringASCIICase s t) := by
  unfold EqIgnoringASCIICase
  infer_instance

/-- The code point of a character once an ASCII capital letter is lowered and
the two code points that Unicode simple case folding identifies with ASCII
letters are replaced by them: the long s U+017F by `s` and the Kelvin sign
U+212A by `k`. -/
def foldASCII (c : Char) : Nat :=
  if c.toNat = 0x017F then 0x73 else if c.toNat = 0x212A then 0x6B else lowerASCII c

/-- Two strings are equal as a whole under simple case folding into ASCII. -/
def EqUnderFold (s t : GoString) : Prop :=
  s.map foldASCII = t.map foldASCII

instance instDecidableEqUnderFold (s t : GoString) : Decidable (EqUnderFold s t) := by
  unfold EqUnderFold
  infer_instance

/-- A content with every line ending `\n` replaced by `\r\n`. -/
def toCRLF : GoString → GoString
  | [] => []
  | c :: s => if c = '\n' then '\r' :: '\n' :: toCRLF s else c :: toCRLF s

/-- A floating-point literal: an optional sign, decimal digits with an
optional decimal point (at least one digit in all), and an optional exponent
(`e` or `E`, an optional sign, one or more digits). -/
def IsFloatLiteral (s : GoString) : Prop :=
  let body := stripSign s
  let intPart := body.takeWhile isDigit
  let afterInt := body.dropWhile isDigit
  let fracPart := match afterInt with
    | '.' :: r => r.takeWhile isDigit
    | _ => []
  let afterFrac := match afterInt with
    | '.' :: r => r.dropWhile isDigit
    | _ => afterInt
  (intPart ≠ [] ∨ fracPart ≠ [])
    ∧ (afterFrac = []
      ∨ ((afterFrac.head? = some 'e' ∨ afterFrac.head? = some 'E')
        ∧ stripSign afterFrac.tail ≠ [] ∧ ∀ c ∈ stripSign afterFrac.tail, isDigit c = true))

instance instDecidableIsFloatLiteral (s : GoString) : Decidable (IsFloatLiteral s) := by
  unfold IsFloatLiteral
  infer_instance

/-- The function `GetBool` with its two loops in the other order: the FALSE
tokens are tested before the TRUE tokens. -/
def GetBoolFalseFirst (orbit : Char → Char → Bool) (c : Configuration) (key : GoString)
    (defaultValue : Bool) : Bool × Option GoString :=
  match c.properties key with
  | none => (defaultValue, none)
  | some value =>
    if boolFalseValues.any (fun falseValue => EqualFold orbit value falseValue) then
      (false, none)
    else if boolTrueValues.any (fun trueValue => EqualFold orbit value trueValue) then
      (true, none)
    else
      (defaultValue, some ("property ".toList ++ key
        ++ " does not have a valid bool value. Using default ".toList ++ fmtBool defaultValue))

/-- A special floating-point value: `NaN`, or `Inf` or `Infinity` with an
optional sign, in any mix of upper- and lower-case ASCII letters. -/
def IsSpecialFloat (s : GoString) : Prop :=
  s.map lowerASCII = "nan".toList.map Char.toNat
    ∨ (stripSign s).map lowerASCII = "inf".toList.map Char.toNat
    ∨ (stripSign s).map lowerASCII = "infinity".toList.map Char.toNat

instance instDecidableIsSpecialFloat (s : GoString) : Decidable (IsSpecialFloat s) := by
  unfold IsSpecialFloat
  infer_instance

/-! ## Lemmas on the string functions -/

theorem Index_eq_none {s : GoString} {sep : Char} : Index s sep = none ↔ sep ∉ s := by
  induction s with
  | nil => simp [Index]
  | cons c cs ih =>
    by_cases h : c = sep
    · simp [Index, h]
    · simp [Index, h, ih, Ne.symm h]

theorem Index_eq_some {s : GoString} {sep : Char} {m : Nat} (h : Index s sep = some m) :
    s.take m = s.takeWhile (fun c => c != sep)
      ∧ s.drop (m + 1) = (s.dropWhile (fun c => c != sep)).drop 1 := by
  induction s generalizing m with
  | nil => simp [Index] at h
  | cons c cs ih =>
    by_cases hc : c = sep
    · simp [Index, hc] at h
      subst h
      simp [hc]
    · simp only [Index, hc, if_false, Option.map_eq_some'] at h
      obtain ⟨m', hm', rfl⟩ := h
      have := ih hm'
      simp [List.takeWhile_cons, List.dropWhile_cons, hc, this.1, this.2]

theorem SplitN_two {t : GoString} (ht : t ≠ []) :
    SplitN t '=' 2 =
      if '=' ∈ t then [beforeFirstEq t, afterFirstEq t] else [t] := by
  have hlen : min 2 (t.length + 1) - 1 = 1 := by
    have : 0 < t.length := List.length_pos.mpr ht
    omega
  unfold SplitN
  rw [if_neg (by decide), hlen]
  by_cases h : '=' ∈ t
  · rw [if_pos h]
    cases hI : Index t '=' with
    | none => exact absurd h (Index_eq_none.mp hI)
    | some m =>
      have := Index_eq_some hI
      simp [genSplit, hI, this.1, this.2, beforeFirstEq, afterFirstEq]
  · rw [if_neg h]
    simp [genSplit, Index_eq_none.mpr h]

theorem HasPrefix_hash (t : GoString) : HasPrefix t ['#'] = decide (t.head? = some '#') := by
  cases t with
  | nil => simp [HasPrefix]
  | cons c cs =>
    by_cases h : c = '#'
    · simp [HasPrefix, List.isPrefixOf, h]
    · simp [HasPrefix, List.isPrefixOf, h, Ne.symm h]

theorem loadLine_eq (m : GoString → Option GoString) (line : GoString) :
    loadLine m line =
      match lineEntry line with
      | none => m
      | some kv => Function.update m kv.1 (some kv.2) := by
  unfold loadLine lineEntry
  by_cases h1 : TrimSpace line = []
  · simp [h1]
  by_cases h2 : (TrimSpace line).head? = some '#'
  · simp [h1, h2, HasPrefix_hash]
  by_cases h3 : '=' ∈ TrimSpace line
  · by_cases h4 : TrimSpace (beforeFirstEq (TrimSpace line)) = []
    · simp [h1, h2, h3, h4, HasPrefix_hash, SplitN_two h1, List.length_pos]
    · simp [h1, h2, h3, h4, HasPrefix_hash, SplitN_two h1, List.length_pos]
  · simp [h1, h2, h3, HasPrefix_hash, SplitN_two h1, List.length_pos]

theorem lineEntry_eq_some {line k v : GoString} :
    lineEntry line = some (k, v) ↔ IsKeyValueLine line k v := by
  unfold lineEntry IsKeyValueLine
  constructor
  · intro h
    dsimp only at h
    split_ifs at h with h1 h2
    · simp only [Option.some.injEq, Prod.mk.injEq] at h
      obtain ⟨rfl, rfl⟩ := h
      exact ⟨h1.1, h1.2.1, h1.2.2, rfl, h2, rfl⟩
  · rintro ⟨a, b, c, rfl, e, rfl⟩
    simp [a, b, c, e]

/-! ## Lemmas on the line loop -/

theorem foldl_loadLine_append (m : GoString → Option GoString) (xs ys : List GoString) :
    (xs ++ ys).foldl loadLine m = ys.foldl loadLine (xs.foldl loadLine m) :=
  List.foldl_append _ _ _ _

theorem loadLine_apply (m : GoString → Option GoString) (line q : GoString) :
    loadLine m line q =
      match lineEntry line with
      | none => m q
      | some kv => if q = kv.1 then some kv.2 else m q := by
  rw [loadLine_eq]
  cases h : lineEntry line with
  | none => rfl
  | some kv =>
    by_cases hq : q = kv.1
    · simp [hq]
    · simp [hq, Function.update_noteq hq]

theorem foldl_loadLine_other (lines : List GoString) (m : GoString → Option GoString)
    (q : GoString) (h : ∀ l ∈ lines, ∀ v, lineEntry l ≠ some (q, v)) :
    lines.foldl loadLine m q = m q := by
  induction lines generalizing m with
  | nil => rfl
  | cons l ls ih =>
    rw [List.foldl_cons, ih _ (fun l' hl' => h l' (List.mem_cons_of_mem _ hl'))]
    rw [loadLine_apply]
    cases he : lineEntry l with
    | none => rfl
    | some kv =>
      have hne : q ≠ kv.1 := by
        intro hq
        exact h l (List.mem_cons_self _ _) kv.2 (by rw [he, hq])
      simp [hne]

theorem foldl_loadLine_origin (lines : List GoString) (m : GoString → Option GoString)
    (q v : GoString) (h : lines.foldl loadLine m q = some v) :
    m q = some v ∨ ∃ l ∈ lines, lineEntry l = some (q, v) := by
  induction lines generalizing m with
  | nil => exact Or.inl h
  | cons l ls ih =>
    rw [List.foldl_cons] at h
    rcases ih _ h with h1 | ⟨l', hl', he⟩
    · rw [loadLine_apply] at h1
      cases he : lineEntry l with
      | none =>
        rw [he] at h1
        exact Or.inl h1
      | some kv =>
        rw [he] at h1
        by_cases hq : q = kv.1
        · right
          refine ⟨l, List.mem_cons_self _ _, ?_⟩
          simp only [hq, if_true, Option.some.injEq] at h1
          rw [he, hq, ← h1]
        · simp only [hq, if_false] at h1
          exact Or.inl h1
    · exact Or.inr ⟨l', List.mem_cons_of_mem _ hl', he⟩

theorem foldl_loadLine_last (pre post : List GoString) (line : GoString)
    (m : GoString → Option GoString) (k v : GoString)
    (hline : lineEntry line = some (k, v))
    (hpost : ∀ l ∈ post, ∀ w, lineEntry l ≠ some (k, w)) :
    (pre ++ line :: post).foldl loadLine m k = some v := by
  rw [foldl_loadLine_append, List.foldl_cons, foldl_loadLine_other _ _ _ hpost,
    loadLine_apply, hline]
  simp

theorem loadPropertyFile_ok {readFile : GoString → Except GoString GoString}
    {fileName content : GoString} (h : readFile fileName = Except.ok content) :
    loadPropertyFile readFile fileName =
      ((Split content '\n').foldl loadLine (fun _ => none), none) := by
  simp [loadPropertyFile, h]

theorem loadPropertyFile_error {readFile : GoString → Except GoString GoString}
    {fileName e : GoString} (h : readFile fileName = Except.error e) :
    loadPropertyFile readFile fileName =
      (fun _ => none, some ("unable to load properties from ".toList ++ fileName
        ++ ". Reason: ".toList ++ e)) := by
  simp [loadPropertyFile, h]

theorem loadLine_isSome (m : GoString → Option GoString) (line q : GoString)
    (h : (m q).isSome = true) : (loadLine m line q).isSome = true := by
  rw [loadLine_apply]
  cases lineEntry line with
  | none => exact h
  | some kv =>
    by_cases hq : q = kv.1
    · simp [hq]
    · simpa [hq] using h

theorem foldl_loadLine_isSome (lines : List GoString) (m : GoString → Option GoString)
    (q : GoString) (h : (m q).isSome = true) : (lines.foldl loadLine m q).isSome = true := by
  induction lines generalizing m with
  | nil => exact h
  | cons l ls ih => exact ih _ (loadLine_isSome m l q h)

theorem foldl_loadLine_hasKey (pre post : List GoString) (line : GoString)
    (m : GoString → Option GoString) (k v : GoString)
    (hline : lineEntry line = some (k, v)) :
    ((pre ++ line :: post).foldl loadLine m k).isSome = true := by
  rw [foldl_loadLine_append, List.foldl_cons]
  apply foldl_loadLine_isSome
  rw [loadLine_apply, hline]
  simp

theorem lineEntry_eq_none {line : GoString} : lineEntry line = none ↔ IsSkippedLine line := by
  unfold lineEntry IsSkippedLine
  dsimp only
  constructor
  · intro h
    by_contra hc
    push_neg at hc
    rw [if_pos ⟨hc.1, hc.2.1, hc.2.2.1⟩, if_pos hc.2.2.2] at h
    exact Option.some_ne_none _ h
  · intro h
    by_cases h1 : TrimSpace line ≠ [] ∧ (TrimSpace line).head? ≠ some '#' ∧ '=' ∈ TrimSpace line
    · rw [if_pos h1]
      rcases h with h | h | h | h
      · exact absurd h h1.1
      · exact absurd h h1.2.1
      · exact absurd h1.2.2 h
      · rw [if_neg (not_not.mpr h)]
    · rw [if_neg h1]

theorem getLast?_filter_split {α : Type} (p : α → Bool) (xs : List α) (a : α)
    (h : (xs.filter p).getLast? = some a) :
    ∃ pre post, xs = pre ++ a :: post ∧ p a = true ∧ ∀ b ∈ post, p b = false := by
  induction xs using List.reverseRecOn with
  | nil => simp at h
  | append_singleton ys y ih =>
    by_cases hy : p y = true
    · rw [List.filter_append, List.filter_singleton, hy] at h
      simp only [cond_true, List.getLast?_append, List.getLast?_singleton, Option.or,
        Option.some.injEq] at h
      subst h
      exact ⟨ys, [], rfl, hy, by simp⟩
    · rw [List.filter_append, List.filter_singleton] at h
      simp only [hy, cond_false, List.append_nil] at h
      obtain ⟨pre, post, rfl, ha, hpost⟩ := ih h
      refine ⟨pre, post ++ [y], by simp, ha, ?_⟩
      intro b hb
      rcases List.mem_append.mp hb with hb | hb
      · exact hpost b hb
      · simp only [List.mem_singleton] at hb
        subst hb
        simpa using hy

/-! ## Lemmas on trimming -/

theorem dropWhile_append_of_all (p : Char → Bool) (w s : GoString) (hw : ∀ c ∈ w, p c = true) :
    (w ++ s).dropWhile p = s.dropWhile p := by
  induction w with
  | nil => rfl
  | cons c cs ih =>
    have hc : p c = true := hw c (List.mem_cons_self _ _)
    simp only [List.cons_append, List.dropWhile_cons, hc, if_true]
    exact ih (fun d hd => hw d (List.mem_cons_of_mem _ hd))

theorem dropWhile_of_head (p : Char → Bool) (s : GoString)
    (h : ∀ c, s.head? = some c → p c = false) : s.dropWhile p = s := by
  cases s with
  | nil => rfl
  | cons c cs => simp [List.dropWhile_cons, h c rfl]

theorem TrimSpace_pad (w1 s w2 : GoString) (h1 : IsWhitespace w1) (h2 : IsWhitespace w2)
    (hs : NoOuterSpace s) : TrimSpace (w1 ++ s ++ w2) = s := by
  unfold TrimSpace TrimLeftFunc TrimRightFunc
  rw [List.append_assoc, dropWhile_append_of_all _ _ _ h1]
  cases s with
  | nil =>
    have : w2.dropWhile IsSpace = [] := by
      have := dropWhile_append_of_all IsSpace w2 [] h2
      simpa using this
    simp [this]
  | cons c cs =>
    have e1 : (c :: cs ++ w2).dropWhile IsSpace = c :: cs ++ w2 :=
      dropWhile_of_head _ _ (fun d hd => hs.1 d (by simpa using hd))
    have e2 : (c :: cs ++ w2).reverse.dropWhile IsSpace = (c :: cs).reverse := by
      rw [List.reverse_append,
        dropWhile_append_of_all _ _ _ (fun d hd => h2 d (by simpa using hd))]
      exact dropWhile_of_head _ _ (fun d hd => hs.2 d (by rw [← List.head?_reverse]; exact hd))
    rw [e1, e2, List.reverse_reverse]

theorem TrimSpace_of_NoOuterSpace (s : GoString) (hs : NoOuterSpace s) : TrimSpace s = s := by
  have := TrimSpace_pad [] s [] (by simp [IsWhitespace]) (by simp [IsWhitespace]) hs
  simpa using this

theorem Split_of_not_mem (s : GoString) (sep : Char) (h : sep ∉ s) : Split s sep = [s] := by
  simp [Split, Count, List.count_eq_zero.mpr h, genSplit]

theorem takeWhile_append_sep (a b : GoString) (sep : Char) (ha : sep ∉ a) :
    (a ++ sep :: b).takeWhile (fun c => c != sep) = a
      ∧ (a ++ sep :: b).dropWhile (fun c => c != sep) = sep :: b := by
  induction a with
  | nil => simp
  | cons c cs ih =>
    have hc : c ≠ sep := fun h => ha (by simp [h])
    have := ih (fun h => ha (List.mem_cons_of_mem _ h))
    simp [List.takeWhile_cons, List.dropWhile_cons, hc, this.1, this.2]

theorem not_mem_of_IsWhitespace (w : GoString) (c : Char) (hw : IsWhitespace w)
    (hc : IsSpace c = false) : c ∉ w := by
  intro h
  have := hw c h
  rw [hc] at this
  exact Bool.noConfusion this

theorem lineEntry_padded (k v w1 w2 w3 w4 : GoString)
    (hk : k ≠ []) (hkt : NoOuterSpace k) (hkeq : '=' ∉ k) (hkhash : k.head? ≠ some '#')
    (hvt : NoOuterSpace v)
    (hw1 : IsWhitespace w1) (hw2 : IsWhitespace w2) (hw3 : IsWhitespace w3)
    (hw4 : IsWhitespace w4) :
    lineEntry (w1 ++ k ++ w2 ++ '=' :: (w3 ++ v ++ w4)) = some (k, v) := by
  -- the trimmed line `T` and what the trimming removes on the right, `W`
  obtain ⟨U, W, hUW, hW, hU, hUlast⟩ : ∃ U W : GoString, w3 ++ v ++ w4 = U ++ W
      ∧ IsWhitespace W ∧ TrimSpace U = v
      ∧ (∀ c, ('=' :: U).getLast? = some c → IsSpace c = false) := by
    by_cases hv : v = []
    · refine ⟨[], w3 ++ w4, by simp [hv], ?_, by simp [hv, TrimSpace, TrimLeftFunc,
        TrimRightFunc], ?_⟩
      · intro c hc
        rcases List.mem_append.mp hc with h | h
        · exact hw3 c h
        · exact hw4 c h
      · intro c hc
        simp only [List.getLast?_singleton, Option.some.injEq] at hc
        subst hc
        decide
    · refine ⟨w3 ++ v, w4, rfl, hw4, ?_, ?_⟩
      · have := TrimSpace_pad w3 v [] hw3 (by simp [IsWhitespace]) hvt
        simpa using this
      · intro c hc
        apply hvt.2 c
        have h1 : ('=' :: (w3 ++ v)) = ('=' :: w3) ++ v := rfl
        rw [h1, List.getLast?_append_of_ne_nil _ hv] at hc
        exact hc
  have hT : NoOuterSpace (k ++ w2 ++ '=' :: U) := by
    constructor
    · intro c hc
      apply hkt.1 c
      cases k with
      | nil => exact absurd rfl hk
      | cons a as => simpa using hc
    · intro c hc
      apply hUlast c
      rw [List.getLast?_append_of_ne_nil _ (List.cons_ne_nil _ _)] at hc
      exact hc
  have hline : w1 ++ k ++ w2 ++ '=' :: (w3 ++ v ++ w4) = w1 ++ (k ++ w2 ++ '=' :: U) ++ W := by
    rw [hUW]
    simp
  have htrim : TrimSpace (w1 ++ k ++ w2 ++ '=' :: (w3 ++ v ++ w4)) = k ++ w2 ++ '=' :: U := by
    rw [hline]
    exact TrimSpace_pad _ _ _ hw1 hW hT
  have heq2 : '=' ∉ k ++ w2 := by
    intro h
    rcases List.mem_append.mp h with h | h
    · exact hkeq h
    · exact not_mem_of_IsWhitespace w2 '=' hw2 (by decide) h
  have hcut := takeWhile_append_sep (k ++ w2) U '=' heq2
  have hkey : TrimSpace (k ++ w2) = k := by
    have := TrimSpace_pad [] k w2 (by simp [IsWhitespace]) hw2 hkt
    simpa using this
  have hhead : (k ++ w2 ++ '=' :: U).head? ≠ some '#' := by
    cases k with
    | nil => exact absurd rfl hk
    | cons a as => simpa using hkhash
  unfold lineEntry
  simp only [htrim, beforeFirstEq, afterFirstEq, hcut.1, hcut.2, hkey, hU, List.drop_one,
    List.tail_cons]
  rw [if_pos ⟨by simp, hhead, by simp⟩, if_pos hk]

/-! ## Lemmas on `strconv` -/

theorem digitVal_le (c : Char) (h : isDigit c = true) : digitVal c ≤ 9 := by
  simp only [isDigit, Bool.and_eq_true, decide_eq_true_eq] at h
  unfold digitVal
  omega

theorem digitsValue_nil : digitsValue [] = 0 := by
  simp [digitsValue]

theorem digitsValue_cons (c : Char) (cs : GoString) :
    digitsValue (c :: cs) = digitVal c * 10 ^ cs.length + digitsValue cs := by
  simp [digitsValue, Nat.ofDigits_append, Nat.ofDigits_singleton]
  ring

theorem digitsValue_lt (ds : GoString) (h : ∀ c ∈ ds, isDigit c = true) :
    digitsValue ds < 10 ^ ds.length := by
  induction ds with
  | nil => simp [digitsValue_nil]
  | cons c cs ih =>
    have h1 := digitVal_le c (h c (List.mem_cons_self _ _))
    have h2 := ih (fun d hd => h d (List.mem_cons_of_mem _ hd))
    rw [digitsValue_cons, List.length_cons, pow_succ]
    nlinarith

theorem atoiLoop_digits (ds : GoString) (acc : Int) (h : ∀ c ∈ ds, isDigit c = true) :
    atoiLoop ds acc = some (acc * 10 ^ ds.length + (digitsValue ds : Int)) := by
  induction ds generalizing acc with
  | nil => simp [atoiLoop, digitsValue_nil]
  | cons c cs ih =>
    rw [atoiLoop, if_pos (h c (List.mem_cons_self _ _)),
      ih _ (fun d hd => h d (List.mem_cons_of_mem _ hd)), digitsValue_cons]
    simp only [List.length_cons, pow_succ, digitVal]
    push_cast
    ring_nf

theorem atoiLoop_bad (ds : GoString) (acc : Int) (h : ¬ ∀ c ∈ ds, isDigit c = true) :
    atoiLoop ds acc = none := by
  induction ds generalizing acc with
  | nil => simp at h
  | cons c cs ih =>
    by_cases hc : isDigit c = true
    · rw [atoiLoop, if_pos hc]
      apply ih
      intro hall
      apply h
      intro d hd
      rcases List.mem_cons.mp hd with rfl | hd
      · exact hc
      · exact hall d hd
    · rw [atoiLoop, if_neg hc]

theorem parseUintLoop_cons (maxVal : Nat) (c : Char) (cs : GoString) (n : Nat) :
    parseUintLoop maxVal (c :: cs) n =
      if isDigit c = true then
        if n ≥ 1844674407370955162 then (maxVal, some NumError.ErrRange)
        else if (n * 10 % 18446744073709551616 + digitVal c) % 18446744073709551616
              < n * 10 % 18446744073709551616
            ∨ (n * 10 % 18446744073709551616 + digitVal c) % 18446744073709551616 > maxVal then
          (maxVal, some NumError.ErrRange)
        else parseUintLoop maxVal cs
          ((n * 10 % 18446744073709551616 + digitVal c) % 18446744073709551616)
      else (0, some NumError.ErrSyntax) := by
  rfl

theorem parseUintLoop_digits (maxVal : Nat) (hmax : maxVal < 2 ^ 64) (ds : GoString)
    (acc : Nat) (h : ∀ c ∈ ds, isDigit c = true) :
    parseUintLoop maxVal ds acc =
      if ds = [] ∨ acc * 10 ^ ds.length + digitsValue ds ≤ maxVal then
        (acc * 10 ^ ds.length + digitsValue ds, none)
      else (maxVal, some NumError.ErrRange) := by
  induction ds generalizing acc with
  | nil => simp [parseUintLoop, digitsValue_nil]
  | cons c cs ih =>
    have hc := h c (List.mem_cons_self _ _)
    have hd := digitVal_le c hc
    have hcs := fun d hd => h d (List.mem_cons_of_mem _ hd)
    have hpos : 0 < 10 ^ cs.length := Nat.pow_pos (by norm_num)
    have hval : acc * 10 ^ (c :: cs).length + digitsValue (c :: cs)
        = (acc * 10 + digitVal c) * 10 ^ cs.length + digitsValue cs := by
      rw [digitsValue_cons, List.length_cons, pow_succ]
      ring
    have hge : acc * 10 + digitVal c
        ≤ (acc * 10 + digitVal c) * 10 ^ cs.length + digitsValue cs := by
      nlinarith
    rw [parseUintLoop_cons, if_pos hc, hval]
    simp only [List.cons_ne_nil, false_or]
    norm_num only at hmax
    by_cases hcut : acc ≥ 1844674407370955162
    · rw [if_pos hcut, if_neg (by omega)]
    · rw [if_neg hcut]
      have e10 : acc * 10 % 18446744073709551616 = acc * 10 := Nat.mod_eq_of_lt (by omega)
      rw [e10]
      by_cases hov : acc * 10 + digitVal c ≤ maxVal
      · have e1 : (acc * 10 + digitVal c) % 18446744073709551616 = acc * 10 + digitVal c :=
          Nat.mod_eq_of_lt (by omega)
        rw [e1, if_neg (by omega), ih _ hcs]
        by_cases hnil : cs = []
        · subst hnil
          simp [digitsValue_nil, hov]
        · simp only [hnil, false_or]
      · have hbad : (acc * 10 + digitVal c) % 18446744073709551616 < acc * 10
            ∨ (acc * 10 + digitVal c) % 18446744073709551616 > maxVal := by
          omega
        rw [if_pos hbad, if_neg (by omega)]

theorem parseUintLoop_range (maxVal : Nat) (ds : GoString) (acc : Nat)
    (h : (parseUintLoop maxVal ds acc).2 = some NumError.ErrRange) :
    (parseUintLoop maxVal ds acc).1 = maxVal := by
  induction ds generalizing acc with
  | nil => simp [parseUintLoop] at h
  | cons c cs ih =>
    rw [parseUintLoop_cons] at h ⊢
    split_ifs at h ⊢ with h1 h2 h3
    · rfl
    · rfl
    · exact ih _ h
    · simp at h

theorem parseUintLoop_bad (maxVal : Nat) (ds : GoString) (acc : Nat)
    (h : ¬ ∀ c ∈ ds, isDigit c = true) : (parseUintLoop maxVal ds acc).2 ≠ none := by
  induction ds generalizing acc with
  | nil => simp at h
  | cons c cs ih =>
    rw [parseUintLoop_cons]
    split_ifs with h1 h2 h3
    · simp
    · simp
    · apply ih
      intro hall
      apply h
      intro d hd
      rcases List.mem_cons.mp hd with rfl | hd
      · exact h1
      · exact hall d hd
    · simp

theorem ParseInt_eq (s : GoString) (bitSize : Nat) (hs : s ≠ []) :
    ParseInt s bitSize =
      if (ParseUint (stripSign s) bitSize).2 = some NumError.ErrSyntax then
        ((0 : Int), (ParseUint (stripSign s) bitSize).2)
      else if s.head? ≠ some '-' ∧ (ParseUint (stripSign s) bitSize).1 ≥ 2 ^ (bitSize - 1) then
        (((2 ^ (bitSize - 1) : Nat) : Int) - 1, some NumError.ErrRange)
      else if s.head? = some '-' ∧ (ParseUint (stripSign s) bitSize).1 > 2 ^ (bitSize - 1) then
        (-((2 ^ (bitSize - 1) : Nat) : Int), some NumError.ErrRange)
      else
        (if s.head? = some '-' then -((ParseUint (stripSign s) bitSize).1 : Int)
          else ((ParseUint (stripSign s) bitSize).1 : Int), none) := by
  cases s with
  | nil => exact absurd rfl hs
  | cons c rest =>
    by_cases h1 : c = '-'
    · subst h1
      simp [ParseInt, stripSign]
    · by_cases h2 : c = '+'
      · subst h2
        simp [ParseInt, stripSign]
      · simp [ParseInt, stripSign, h1, h2]

theorem Atoi_fast (intSize : Nat) (s : GoString)
    (h : (intSize = 32 ∧ 0 < s.length ∧ s.length < 10)
      ∨ (intSize = 64 ∧ 0 < s.length ∧ s.length < 19)) :
    Atoi intSize s =
      if stripSign s = [] then (0, some NumError.ErrSyntax)
      else
        match atoiLoop (stripSign s) 0 with
        | none => (0, some NumError.ErrSyntax)
        | some n => (if s.head? = some '-' then -n else n, none) := by
  unfold Atoi
  simp only [if_pos h]
  cases s with
  | nil => simp [stripSign]
  | cons c rest =>
    by_cases h1 : c = '-'
    · subst h1
      cases rest <;> simp [stripSign]
    · by_cases h2 : c = '+'
      · subst h2
        cases rest <;> simp [stripSign]
      · simp [stripSign, h1, h2]

theorem Atoi_slow (intSize : Nat) (s : GoString)
    (h : ¬ ((intSize = 32 ∧ 0 < s.length ∧ s.length < 10)
      ∨ (intSize = 64 ∧ 0 < s.length ∧ s.length < 19))) :
    Atoi intSize s = ParseInt s intSize := by
  unfold Atoi
  simp only [if_neg h]

theorem stripSign_length_le (s : GoString) : (stripSign s).length ≤ s.length := by
  cases s with
  | nil => simp [stripSign]
  | cons c rest =>
    simp only [stripSign]
    split_ifs <;> simp

theorem ne_nil_of_IsIntLiteral {s : GoString} (h : IsIntLiteral s) : s ≠ [] := by
  intro hs
  subst hs
  exact h.1 rfl

theorem ParseUint_literal (s : GoString) (bitSize : Nat) (hb : bitSize ≤ 64)
    (hlit : IsIntLiteral s) :
    ParseUint (stripSign s) bitSize =
      if digitsValue (stripSign s) ≤ 2 ^ bitSize - 1 then (digitsValue (stripSign s), none)
      else (2 ^ bitSize - 1, some NumError.ErrRange) := by
  have hmax : 2 ^ bitSize - 1 < 2 ^ 64 := by
    have : 2 ^ bitSize ≤ 2 ^ 64 := Nat.pow_le_pow_right (by norm_num) hb
    have : 0 < 2 ^ bitSize := Nat.pow_pos (by norm_num)
    omega
  unfold ParseUint
  rw [if_neg hlit.1, parseUintLoop_digits _ hmax _ _ hlit.2]
  simp [hlit.1]

theorem ParseInt_literal (intSize : Nat) (hsize : intSize = 32 ∨ intSize = 64) (s : GoString)
    (hlit : IsIntLiteral s) :
    ParseInt s intSize =
      if FitsInt intSize (literalValue s) then (literalValue s, none)
      else if s.head? = some '-' then (-((2 ^ (intSize - 1) : Nat) : Int), some NumError.ErrRange)
      else (((2 ^ (intSize - 1) : Nat) : Int) - 1, some NumError.ErrRange) := by
  rw [ParseInt_eq _ _ (ne_nil_of_IsIntLiteral hlit),
    ParseUint_literal s intSize (by omega) hlit]
  unfold FitsInt literalValue
  generalize digitsValue (stripSign s) = v
  rcases hsize with rfl | rfl
  · norm_num only
    by_cases hneg : s.head? = some '-' <;> by_cases hbig : v ≤ 4294967295 <;>
      simp only [hneg, hbig, if_true, if_false, ne_eq, not_true_eq_false, not_false_eq_true,
        false_and, true_and, reduceCtorEq] <;>
      split_ifs <;> first | rfl | (exfalso; omega) | (exfalso; simp_all)
  · norm_num only
    by_cases hneg : s.head? = some '-' <;> by_cases hbig : v ≤ 18446744073709551615 <;>
      simp only [hneg, hbig, if_true, if_false, ne_eq, not_true_eq_false, not_false_eq_true,
        false_and, true_and, reduceCtorEq] <;>
      split_ifs <;> first | rfl | (exfalso; omega) | (exfalso; simp_all)

theorem Atoi_literal (intSize : Nat) (hsize : intSize = 32 ∨ intSize = 64) (s : GoString)
    (hlit : IsIntLiteral s) :
    Atoi intSize s =
      if FitsInt intSize (literalValue s) then (literalValue s, none)
      else if s.head? = some '-' then (-((2 ^ (intSize - 1) : Nat) : Int), some NumError.ErrRange)
      else (((2 ^ (intSize - 1) : Nat) : Int) - 1, some NumError.ErrRange) := by
  by_cases hfast : (intSize = 32 ∧ 0 < s.length ∧ s.length < 10)
      ∨ (intSize = 64 ∧ 0 < s.length ∧ s.length < 19)
  · have hlen := stripSign_length_le s
    have hval := digitsValue_lt _ hlit.2
    have hfit : FitsInt intSize (literalValue s) := by
      have hbound : digitsValue (stripSign s) < 2 ^ (intSize - 1) := by
        rcases hfast with ⟨h, -, h2⟩ | ⟨h, -, h2⟩
        · subst h
          have : 10 ^ (stripSign s).length ≤ 10 ^ 9 :=
            Nat.pow_le_pow_right (by norm_num) (by omega)
          norm_num only at this ⊢
          omega
        · subst h
          have : 10 ^ (stripSign s).length ≤ 10 ^ 18 :=
            Nat.pow_le_pow_right (by norm_num) (by omega)
          norm_num only at this ⊢
          omega
      have hb : (digitsValue (stripSign s) : Int) < 2 ^ (intSize - 1) := by
        exact_mod_cast hbound
      have h0 : (0 : Int) ≤ digitsValue (stripSign s) := Int.natCast_nonneg _
      unfold FitsInt literalValue
      split_ifs <;> constructor <;> linarith
    rw [if_pos hfit, Atoi_fast _ _ hfast, if_neg hlit.1, atoiLoop_digits _ _ hlit.2]
    simp only [zero_mul, zero_add, literalValue]
  · rw [Atoi_slow _ _ hfast, ParseInt_literal _ hsize _ hlit]

theorem Atoi_not_literal (intSize : Nat) (hsize : intSize = 32 ∨ intSize = 64) (s : GoString)
    (hlit : ¬ IsIntLiteral s) : (Atoi intSize s).2 ≠ none := by
  have hcase : stripSign s = [] ∨ ¬ ∀ c ∈ stripSign s, isDigit c = true := by
    by_contra hc
    push_neg at hc
    exact hlit ⟨hc.1, hc.2⟩
  by_cases hfast : (intSize = 32 ∧ 0 < s.length ∧ s.length < 10)
      ∨ (intSize = 64 ∧ 0 < s.length ∧ s.length < 19)
  · rw [Atoi_fast _ _ hfast]
    rcases hcase with h | h
    · rw [if_pos h]
      simp
    · by_cases hnil : stripSign s = []
      · rw [if_pos hnil]
        simp
      · rw [if_neg hnil, atoiLoop_bad _ _ h]
        simp
  · rw [Atoi_slow _ _ hfast]
    by_cases hs : s = []
    · subst hs
      simp [ParseInt]
    · rw [ParseInt_eq _ _ hs]
      have hpos : 0 < 2 ^ (intSize - 1) := Nat.pow_pos (by norm_num)
      have hpow : (2 : Nat) ^ intSize = 2 * 2 ^ (intSize - 1) := by
        rcases hsize with h | h <;> subst h <;> norm_num
      have herr : (ParseUint (stripSign s) intSize).2 ≠ none := by
        unfold ParseUint
        rcases hcase with h | h
        · rw [if_pos h]
          simp
        · by_cases hnil : stripSign s = []
          · rw [if_pos hnil]
            simp
          · rw [if_neg hnil]
            exact parseUintLoop_bad _ _ _ h
      by_cases hsyn : (ParseUint (stripSign s) intSize).2 = some NumError.ErrSyntax
      · rw [if_pos hsyn, hsyn]
        simp
      · rw [if_neg hsyn]
        have hrange : (ParseUint (stripSign s) intSize).2 = some NumError.ErrRange := by
          cases hp : (ParseUint (stripSign s) intSize).2 with
          | none => exact absurd hp herr
          | some e =>
            cases e with
            | ErrSyntax => exact absurd hp hsyn
            | ErrRange => rfl
        have hun : (ParseUint (stripSign s) intSize).1 = 2 ^ intSize - 1 := by
          unfold ParseUint at hrange ⊢
          by_cases hnil : stripSign s = []
          · rw [if_pos hnil] at hrange
            simp at hrange
          · rw [if_neg hnil] at hrange ⊢
            exact parseUintLoop_range _ _ _ hrange
        rw [hun]
        by_cases hneg : s.head? = some '-'
        · have hgt : 2 ^ intSize - 1 > 2 ^ (intSize - 1) := by
            rcases hsize with h | h <;> subst h <;> norm_num
          rw [if_neg (by simp [hneg]), if_pos ⟨hneg, hgt⟩]
          simp
        · rw [if_pos ⟨hneg, (by omega : 2 ^ intSize - 1 ≥ 2 ^ (intSize - 1))⟩]
          simp

theorem digitChar_spec (d : Nat) (hd : d < 10) :
    isDigit (digitChar d) = true ∧ digitVal (digitChar d) = d
      ∧ digitChar d ≠ '+' ∧ digitChar d ≠ '-' := by
  interval_cases d <;> decide

theorem Itoa_natCast (m : Nat) :
    Itoa (m : Int) =
      if (Nat.digits 10 m).reverse.map digitChar = [] then ['0']
      else (Nat.digits 10 m).reverse.map digitChar := by
  simp [Itoa]

theorem Itoa_natCast_spec (m : Nat) :
    (∀ c ∈ Itoa (m : Int), isDigit c = true) ∧ Itoa (m : Int) ≠ []
      ∧ digitsValue (Itoa (m : Int)) = m ∧ stripSign (Itoa (m : Int)) = Itoa (m : Int)
      ∧ (Itoa (m : Int)).head? ≠ some '-' := by
  have hall : ∀ c ∈ Itoa (m : Int), isDigit c = true ∧ c ≠ '+' ∧ c ≠ '-' := by
    intro c hc
    rw [Itoa_natCast] at hc
    split_ifs at hc with h
    · simp only [List.mem_singleton] at hc
      subst hc
      decide
    · simp only [List.mem_map, List.mem_reverse] at hc
      obtain ⟨d, hd, rfl⟩ := hc
      have := digitChar_spec d (Nat.digits_lt_base (by norm_num) hd)
      exact ⟨this.1, this.2.2⟩
  have hne : Itoa (m : Int) ≠ [] := by
    rw [Itoa_natCast]
    split_ifs with h
    · simp
    · exact h
  have hval : digitsValue (Itoa (m : Int)) = m := by
    rw [Itoa_natCast]
    split_ifs with h
    · have hm : m = 0 := by
        simp only [List.map_eq_nil_iff, List.reverse_eq_nil_iff] at h
        exact Nat.digits_eq_nil_iff_eq_zero.mp h
      subst hm
      decide
    · unfold digitsValue
      rw [← List.map_reverse, List.reverse_reverse, List.map_map]
      have hmap : (Nat.digits 10 m).map (digitVal ∘ digitChar) = Nat.digits 10 m := by
        conv_rhs => rw [← List.map_id (Nat.digits 10 m)]
        apply List.map_congr_left
        intro d hd
        exact (digitChar_spec d (Nat.digits_lt_base (by norm_num) hd)).2.1
      rw [hmap, Nat.ofDigits_digits]
  refine ⟨fun c hc => (hall c hc).1, hne, hval, ?_, ?_⟩
  · cases hI : Itoa (m : Int) with
    | nil => exact absurd hI hne
    | cons c cs =>
      have := hall c (by rw [hI]; exact List.mem_cons_self _ _)
      simp [stripSign, this.2.1, this.2.2]
  · cases hI : Itoa (m : Int) with
    | nil => exact absurd hI hne
    | cons c cs =>
      have := hall c (by rw [hI]; exact List.mem_cons_self _ _)
      simp [this.2.2]

theorem Itoa_neg (n : Int) (hn : n < 0) : Itoa n = '-' :: Itoa (n.natAbs : Int) := by
  rw [Itoa_natCast]
  simp [Itoa, hn]

theorem Itoa_literal (n : Int) : IsIntLiteral (Itoa n) ∧ literalValue (Itoa n) = n := by
  by_cases hn : n < 0
  · have h := Itoa_natCast_spec n.natAbs
    rw [Itoa_neg n hn]
    have hs : stripSign ('-' :: Itoa (n.natAbs : Int)) = Itoa (n.natAbs : Int) := by
      simp [stripSign]
    refine ⟨⟨by rw [hs]; exact h.2.1, by rw [hs]; exact h.1⟩, ?_⟩
    unfold literalValue
    rw [hs, h.2.2.1]
    simp only [List.head?_cons, if_true]
    omega
  · have hn' : n = (n.natAbs : Int) := by omega
    have h := Itoa_natCast_spec n.natAbs
    rw [hn']
    refine ⟨⟨by rw [h.2.2.2.1]; exact h.2.1, by rw [h.2.2.2.1]; exact h.1⟩, ?_⟩
    unfold literalValue
    rw [if_neg h.2.2.2.2, h.2.2.2.1, h.2.2.1]

theorem GetInt_stored (intSize : Nat) (c : Configuration) (key value : GoString) (d : Int)
    (h : c.properties key = some value) :
    c.GetInt intSize key d =
      if (Atoi intSize value).2 ≠ none then
        (d, some ("property ".toList ++ key
          ++ " does not have a valid integer value. Using default ".toList ++ Itoa d))
      else ((Atoi intSize value).1, none) := by
  simp only [Configuration.GetInt, h]

/-! ## Lemmas on `EqualFold` -/

theorem char_eq_iff (a b : Char) : a = b ↔ a.toNat = b.toNat := by
  constructor
  · intro h
    rw [h]
  · intro h
    rw [← Char.ofNat_toNat a, ← Char.ofNat_toNat b, h]

theorem char_beq (a b : Char) : (a == b) = decide (a.toNat = b.toNat) := by
  by_cases h : a = b
  · simp [h]
  · have h2 : a.toNat ≠ b.toNat := fun hh => h ((char_eq_iff a b).mpr hh)
    simp [h, h2]

theorem foldRune_ascii (orbit : Char → Char → Bool) (a b : Char) (hb : b.toNat < 0x80) :
    foldRune orbit a b = true ↔ foldASCII a = foldASCII b := by
  have eK : 'K'.toNat = 75 := rfl
  have ek : 'k'.toNat = 107 := rfl
  have eS : 'S'.toNat = 83 := rfl
  have es : 's'.toNat = 115 := rfl
  unfold foldRune foldASCII lowerASCII asciiOrbit
  by_cases hab : a = b
  · subst hab
    simp
  · have hxy : a.toNat ≠ b.toNat := fun hh => hab ((char_eq_iff a b).mpr hh)
    rw [if_neg hab]
    by_cases hlt : b.toNat < a.toNat
    · simp only [hlt, if_true, char_beq, eK, ek, eS, es]
      generalize a.toNat = x at *
      generalize b.toNat = y at *
      by_cases hx : x < 128
      · simp only [hx, if_true, decide_eq_true_eq]
        split_ifs <;> omega
      · simp only [hx, if_false, hb, if_true, Bool.or_eq_true, Bool.and_eq_true,
          decide_eq_true_eq, beq_iff_eq]
        split_ifs <;> omega
    · simp only [hlt, if_false, hb, if_true, decide_eq_true_eq]
      generalize a.toNat = x at *
      generalize b.toNat = y at *
      split_ifs <;> omega

theorem EqualFold_ascii (orbit : Char → Char → Bool) (s t : GoString)
    (ht : ∀ b ∈ t, b.toNat < 0x80) : EqualFold orbit s t = true ↔ EqUnderFold s t := by
  unfold EqUnderFold
  induction s generalizing t with
  | nil =>
    cases t with
    | nil => simp [EqualFold]
    | cons b t => simp [EqualFold]
  | cons a s ih =>
    cases t with
    | nil => simp [EqualFold]
    | cons b t =>
      simp only [EqualFold, Bool.and_eq_true, List.map_cons, List.cons.injEq]
      rw [foldRune_ascii orbit a b (ht b (List.mem_cons_self _ _)),
        ih t (fun c hc => ht c (List.mem_cons_of_mem _ hc))]

theorem tokens_ascii : ∀ tok ∈ boolTrueValues ++ boolFalseValues, ∀ b ∈ tok, b.toNat < 0x80 := by
  decide

theorem any_EqualFold (orbit : Char → Char → Bool) (value : GoString) (toks : List GoString)
    (h : ∀ tok ∈ toks, ∀ b ∈ tok, b.toNat < 0x80) :
    toks.any (fun tok => EqualFold orbit value tok) = true ↔ ∃ tok ∈ toks, EqUnderFold value tok := by
  simp only [List.any_eq_true]
  constructor
  · rintro ⟨tok, htok, he⟩
    exact ⟨tok, htok, (EqualFold_ascii orbit value tok (h tok htok)).mp he⟩
  · rintro ⟨tok, htok, he⟩
    exact ⟨tok, htok, (EqualFold_ascii orbit value tok (h tok htok)).mpr he⟩

theorem GetBool_stored (orbit : Char → Char → Bool) (c : Configuration) (key value : GoString)
    (d : Bool) (h : c.properties key = some value) :
    c.GetBool orbit key d =
      if ∃ tok ∈ boolTrueValues, EqUnderFold value tok then (true, none)
      else if ∃ tok ∈ boolFalseValues, EqUnderFold value tok then (false, none)
      else (d, some ("property ".toList ++ key
        ++ " does not have a valid bool value. Using default ".toList ++ fmtBool d)) := by
  have h1 := any_EqualFold orbit value boolTrueValues
    (fun tok ht => tokens_ascii tok (List.mem_append_left _ ht))
  have h2 := any_EqualFold orbit value boolFalseValues
    (fun tok ht => tokens_ascii tok (List.mem_append_right _ ht))
  simp only [Configuration.GetBool, h]
  by_cases ht : ∃ tok ∈ boolTrueValues, EqUnderFold value tok
  · rw [if_pos (h1.mpr ht), if_pos ht]
  · rw [if_neg (fun hh => ht (h1.mp hh)), if_neg ht]
    by_cases hf : ∃ tok ∈ boolFalseValues, EqUnderFold value tok
    · rw [if_pos (h2.mpr hf), if_pos hf]
    · rw [if_neg (fun hh => hf (h2.mp hh)), if_neg hf]

theorem EqUnderFold_of_EqIgnoringASCIICase (s t : GoString) (ht : ∀ b ∈ t, b.toNat < 0x80)
    (h : EqIgnoringASCIICase s t) : EqUnderFold s t := by
  unfold EqIgnoringASCIICase at h
  unfold EqUnderFold
  induction s generalizing t with
  | nil =>
    cases t with
    | nil => rfl
    | cons b t => simp at h
  | cons a s ih =>
    cases t with
    | nil => simp at h
    | cons b t =>
      simp only [List.map_cons, List.cons.injEq] at h ⊢
      refine ⟨?_, ih t (fun c hc => ht c (List.mem_cons_of_mem _ hc)) h.2⟩
      have hb := ht b (List.mem_cons_self _ _)
      have h1 := h.1
      unfold foldASCII
      unfold lowerASCII at h1 ⊢
      generalize a.toNat = x at *
      generalize b.toNat = y at *
      split_ifs at h1 ⊢ <;> omega

theorem tokens_disjoint :
    ∀ t ∈ boolTrueValues, ∀ f ∈ boolFalseValues, t.map foldASCII ≠ f.map foldASCII := by
  decide

/-! ## Lemmas on `Split` -/

theorem genSplit_cons_ne (sep c : Char) (hc : c ≠ sep) (n : Nat) (s : GoString) :
    genSplit sep n (c :: s) =
      match genSplit sep n s with
      | [] => []
      | h :: t => (c :: h) :: t := by
  cases n with
  | zero => rfl
  | succ n =>
    simp only [genSplit, Index, if_neg hc]
    cases Index s sep with
    | none => rfl
    | some m => rfl

theorem genSplit_cons_eq (sep : Char) (n : Nat) (s : GoString) :
    genSplit sep (n + 1) (sep :: s) = [] :: genSplit sep n s := by
  simp [genSplit, Index]

theorem Split_nil (sep : Char) : Split [] sep = [[]] := by
  rfl

theorem Split_cons (c : Char) (s : GoString) (sep : Char) :
    Split (c :: s) sep =
      if c = sep then [] :: Split s sep
      else
        match Split s sep with
        | [] => []
        | h :: t => (c :: h) :: t := by
  unfold Split Count
  by_cases hc : c = sep
  · subst hc
    rw [if_pos rfl, List.count_cons_self, genSplit_cons_eq]
  · rw [if_neg hc, List.count_cons_of_ne (Ne.symm hc), genSplit_cons_ne sep c hc]

theorem Split_ne_nil (s : GoString) (sep : Char) : Split s sep ≠ [] := by
  induction s with
  | nil => simp [Split_nil]
  | cons c s ih =>
    rw [Split_cons]
    split_ifs
    · simp
    · cases h : Split s sep with
      | nil => exact absurd h ih
      | cons a t => simp

theorem Split_append_sep (a b : GoString) (sep : Char) (ha : sep ∉ a) :
    Split (a ++ sep :: b) sep = a :: Split b sep := by
  induction a with
  | nil => simp [Split_cons]
  | cons c a ih =>
    have hc : c ≠ sep := fun h => ha (by simp [h])
    rw [List.cons_append, Split_cons, if_neg hc, ih (fun h => ha (List.mem_cons_of_mem _ h))]

theorem Split_join (a b : GoString) (sep : Char) :
    Split (a ++ sep :: b) sep = Split a sep ++ Split b sep := by
  induction a with
  | nil => simp [Split_cons, Split_nil]
  | cons c a ih =>
    rw [List.cons_append, Split_cons, Split_cons, ih]
    by_cases hc : c = sep
    · simp [hc]
    · rw [if_neg hc, if_neg hc]
      cases h : Split a sep with
      | nil => exact absurd h (Split_ne_nil a sep)
      | cons x t => simp

theorem not_mem_of_mem_Split (s : GoString) (sep : Char) :
    ∀ l ∈ Split s sep, sep ∉ l := by
  induction s with
  | nil => simp [Split_nil]
  | cons c s ih =>
    rw [Split_cons]
    by_cases hc : c = sep
    · rw [if_pos hc]
      intro l hl
      rcases List.mem_cons.mp hl with rfl | hl
      · simp
      · exact ih l hl
    · rw [if_neg hc]
      cases h : Split s sep with
      | nil => simp
      | cons x t =>
        rw [h] at ih
        intro l hl
        rcases List.mem_cons.mp hl with rfl | hl
        · intro hm
          rcases List.mem_cons.mp hm with hm | hm
          · exact hc hm.symm
          · exact ih x (List.mem_cons_self _ _) hm
        · exact ih l (List.mem_cons_of_mem _ hl)

/-! ## More lemmas on trimming -/

theorem TrimSpace_eq_rdropWhile (s : GoString) :
    TrimSpace s = (s.dropWhile IsSpace).rdropWhile IsSpace := by
  rfl

theorem head?_of_initial {a b : GoString} (h : a <+: b) (ha : a ≠ []) : a.head? = b.head? := by
  obtain ⟨t, rfl⟩ := h
  cases a with
  | nil => exact absurd rfl ha
  | cons c cs => rfl

theorem mem_of_mem_TrimSpace {s : GoString} {c : Char} (h : c ∈ TrimSpace s) : c ∈ s := by
  rw [TrimSpace_eq_rdropWhile] at h
  exact List.dropWhile_subset _ (( List.rdropWhile_prefix IsSpace _).subset h)

theorem NoOuterSpace_TrimSpace (s : GoString) : NoOuterSpace (TrimSpace s) := by
  rw [TrimSpace_eq_rdropWhile]
  constructor
  · intro c hc
    have hne : (s.dropWhile IsSpace).rdropWhile IsSpace ≠ [] := by
      intro h
      rw [h] at hc
      exact Option.noConfusion hc
    have h1 := head?_of_initial ( List.rdropWhile_prefix IsSpace _) hne
    have h2 := List.head?_dropWhile_not IsSpace s
    rw [← h1, hc] at h2
    exact h2
  · intro c hc
    have hne : (s.dropWhile IsSpace).rdropWhile IsSpace ≠ [] := by
      intro h
      rw [h] at hc
      exact Option.noConfusion hc
    have h1 := List.rdropWhile_last_not IsSpace (s.dropWhile IsSpace) hne
    rw [List.getLast?_eq_getLast _ hne] at hc
    have h2 : ((s.dropWhile IsSpace).rdropWhile IsSpace).getLast hne = c := Option.some.inj hc
    rw [h2] at h1
    simpa using h1

theorem TrimSpace_idem (s : GoString) : TrimSpace (TrimSpace s) = TrimSpace s :=
  TrimSpace_of_NoOuterSpace _ (NoOuterSpace_TrimSpace s)

theorem rdropWhile_append_of_all (p : Char → Bool) (t w : GoString) (hw : ∀ c ∈ w, p c = true) :
    (t ++ w).rdropWhile p = t.rdropWhile p := by
  induction w using List.reverseRecOn with
  | nil => simp
  | append_singleton w c ih =>
    rw [← List.append_assoc, List.rdropWhile_concat_pos _ _ _ (hw c (by simp))]
    exact ih (fun d hd => hw d (by simp [hd]))

theorem TrimSpace_append_space (l w : GoString) (hw : IsWhitespace w) :
    TrimSpace (l ++ w) = TrimSpace l := by
  rw [TrimSpace_eq_rdropWhile, TrimSpace_eq_rdropWhile, List.dropWhile_append]
  by_cases h : (l.dropWhile IsSpace).isEmpty = true
  · rw [if_pos h]
    have h1 : l.dropWhile IsSpace = [] := List.isEmpty_iff.mp h
    have h2 : w.dropWhile IsSpace = [] := List.dropWhile_eq_nil_iff.mpr (fun x hx => hw x hx)
    rw [h1, h2]
  · rw [if_neg h]
    exact rdropWhile_append_of_all _ _ _ hw

theorem head?_TrimSpace_of_head (s : GoString) (c : Char) (hs : s.head? = some c)
    (hc : IsSpace c = false) : (TrimSpace s).head? = some c := by
  cases s with
  | nil => exact Option.noConfusion hs
  | cons a r =>
    simp only [List.head?_cons, Option.some.injEq] at hs
    subst hs
    rw [TrimSpace_eq_rdropWhile]
    have h1 : (a :: r).dropWhile IsSpace = a :: r := by simp [List.dropWhile_cons, hc]
    rw [h1]
    have hne : (a :: r).rdropWhile IsSpace ≠ [] := by
      intro h
      have := List.rdropWhile_eq_nil_iff.mp h a (List.mem_cons_self _ _)
      rw [hc] at this
      exact Bool.noConfusion this
    rw [head?_of_initial ( List.rdropWhile_prefix IsSpace _) hne]
    rfl

/-! ## More lemmas on the line loop -/

theorem lineEntry_of_first_eq (line a rest : GoString)
    (htrim : TrimSpace line = a ++ '=' :: rest) (ha : '=' ∉ a)
    (hkey : TrimSpace a ≠ []) (hhash : (TrimSpace line).head? ≠ some '#') :
    lineEntry line = some (TrimSpace a, TrimSpace rest) := by
  have hcut := takeWhile_append_sep a rest '=' ha
  unfold lineEntry
  simp only [beforeFirstEq, afterFirstEq]
  rw [if_pos ⟨by rw [htrim]; simp, hhash, by rw [htrim]; simp⟩]
  rw [htrim, hcut.1, hcut.2, if_pos hkey]
  simp

theorem foldl_loadLine_override (lines : List GoString) (m : GoString → Option GoString)
    (q : GoString) :
    lines.foldl loadLine m q =
      match lines.foldl loadLine (fun _ => none) q with
      | some v => some v
      | none => m q := by
  induction lines using List.reverseRecOn with
  | nil => rfl
  | append_singleton ls l ih =>
    rw [List.foldl_append, List.foldl_append, List.foldl_cons, List.foldl_cons,
      List.foldl_nil, List.foldl_nil, loadLine_apply, loadLine_apply]
    cases lineEntry l with
    | none => exact ih
    | some kv =>
      by_cases hq : q = kv.1
      · simp [hq]
      · simpa [hq] using ih

theorem loadLine_congr (m : GoString → Option GoString) (l1 l2 : GoString)
    (h : TrimSpace l1 = TrimSpace l2) : loadLine m l1 = loadLine m l2 := by
  unfold loadLine
  rw [h]

theorem lineEntry_invariant {line k v : GoString} (h : lineEntry line = some (k, v)) :
    NoOuterSpace k ∧ NoOuterSpace v ∧ k ≠ [] := by
  have hk := lineEntry_eq_some.mp h
  obtain ⟨-, -, -, rfl, hne, rfl⟩ := hk
  exact ⟨NoOuterSpace_TrimSpace _, NoOuterSpace_TrimSpace _, hne⟩

theorem loaded_origin (readFile : GoString → Except GoString GoString)
    (fileName k v : GoString)
    (h : (LoadConfiguration readFile fileName).1.properties k = some v) :
    ∃ content, readFile fileName = Except.ok content
      ∧ ∃ line ∈ Split content '\n', lineEntry line = some (k, v) := by
  cases hr : readFile fileName with
  | error e =>
    simp [LoadConfiguration, loadPropertyFile_error hr] at h
  | ok content =>
    simp only [LoadConfiguration, loadPropertyFile_ok hr] at h
    rcases foldl_loadLine_origin _ _ k v h with h0 | ⟨l, hl, he⟩
    · exact absurd h0 (by simp)
    · exact ⟨content, rfl, l, hl, he⟩

/-! ## Lemmas on line endings and on the characters of keys and values -/

theorem Split_toCRLF (s : GoString) :
    List.Forall₂ (fun l1 l2 => l1 = l2 ∨ l1 = l2 ++ ['\r'])
      (Split (toCRLF s) '\n') (Split s '\n') := by
  induction s with
  | nil =>
    rw [toCRLF, Split_nil]
    exact List.Forall₂.cons (Or.inl rfl) List.Forall₂.nil
  | cons c s ih =>
    by_cases hc : c = '\n'
    · subst hc
      have h1 : toCRLF ('\n' :: s) = '\r' :: '\n' :: toCRLF s := by simp [toCRLF]
      rw [h1, Split_cons '\r', if_neg (by decide), Split_cons '\n' (toCRLF s), if_pos rfl,
        Split_cons '\n' s, if_pos rfl]
      exact List.Forall₂.cons (Or.inr rfl) ih
    · have h1 : toCRLF (c :: s) = c :: toCRLF s := by simp [toCRLF, hc]
      rw [h1, Split_cons c (toCRLF s), if_neg hc, Split_cons c s, if_neg hc]
      cases hx : Split (toCRLF s) '\n' with
      | nil => exact absurd hx (Split_ne_nil _ _)
      | cons x xs =>
        cases hy : Split s '\n' with
        | nil => exact absurd hy (Split_ne_nil _ _)
        | cons y ys =>
          rw [hx, hy] at ih
          cases ih with
          | cons hxy hrest =>
            refine List.Forall₂.cons ?_ hrest
            rcases hxy with h | h
            · exact Or.inl (by rw [h])
            · exact Or.inr (by rw [h]; rfl)

theorem foldl_loadLine_congr (xs ys : List GoString) (m : GoString → Option GoString)
    (h : List.Forall₂ (fun l1 l2 => l1 = l2 ∨ l1 = l2 ++ ['\r']) xs ys) :
    xs.foldl loadLine m = ys.foldl loadLine m := by
  induction h generalizing m with
  | nil => rfl
  | @cons a b l1 l2 hxy _ ih =>
    rw [List.foldl_cons, List.foldl_cons]
    have hab : TrimSpace a = TrimSpace b := by
      rcases hxy with h | h
      · rw [h]
      · rw [h]
        exact TrimSpace_append_space _ _ (by decide)
    rw [loadLine_congr m a b hab]
    exact ih _

theorem lineEntry_chars {line k v : GoString} (h : lineEntry line = some (k, v))
    (hnl : '\n' ∉ line) :
    '=' ∉ k ∧ '\n' ∉ k ∧ k.head? ≠ some '#' ∧ '\n' ∉ v := by
  obtain ⟨hne, hhash, -, hk, hkne, hv⟩ := lineEntry_eq_some.mp h
  have hsub : ∀ c, c ∈ beforeFirstEq (TrimSpace line) → c ∈ line := fun c hc =>
    mem_of_mem_TrimSpace (List.takeWhile_subset _ hc)
  refine ⟨?_, ?_, ?_, ?_⟩
  · intro hmem
    rw [hk] at hmem
    have := List.mem_takeWhile_imp (mem_of_mem_TrimSpace hmem)
    simp at this
  · intro hmem
    rw [hk] at hmem
    exact hnl (hsub _ (mem_of_mem_TrimSpace hmem))
  · -- the key starts with the first character of the trimmed line
    have hb : beforeFirstEq (TrimSpace line) ≠ [] := by
      intro hb
      rw [hb] at hk
      exact hkne (by rw [hk]; rfl)
    have hhead : (beforeFirstEq (TrimSpace line)).head? = (TrimSpace line).head? :=
      head?_of_initial ( List.takeWhile_prefix _) hb
    cases ht : (TrimSpace line).head? with
    | none =>
      rw [ht] at hhead
      cases hbb : beforeFirstEq (TrimSpace line) with
      | nil => exact absurd hbb hb
      | cons x xs =>
        rw [hbb] at hhead
        exact Option.noConfusion hhead
    | some c =>
      rw [ht] at hhead hhash
      have hc : IsSpace c = false := (NoOuterSpace_TrimSpace line).1 c ht
      rw [hk, head?_TrimSpace_of_head _ c hhead hc]
      exact hhash
  · intro hmem
    rw [hv] at hmem
    have h1 := mem_of_mem_TrimSpace hmem
    unfold afterFirstEq at h1
    exact hnl (mem_of_mem_TrimSpace (List.dropWhile_subset _ (List.mem_of_mem_drop h1)))

/-! ## Lemmas on `GetFloat` and on the order of the token tests -/

theorem GetFloat_stored {F : Type} (ParseFloat : GoString → Option F) (fmtFloat : F → GoString)
    (c : Configuration) (key value : GoString) (d : F) (h : c.properties key = some value) :
    c.GetFloat ParseFloat fmtFloat key d =
      match ParseFloat value with
      | none =>
        (d, some ("property ".toList ++ key
          ++ " does not have a valid float value. Using default ".toList ++ fmtFloat d))
      | some x => (x, none) := by
  simp only [Configuration.GetFloat, h]

theorem not_both_token_sets (orbit : Char → Char → Bool) (value : GoString) :
    ¬ (boolTrueValues.any (fun tok => EqualFold orbit value tok) = true
      ∧ boolFalseValues.any (fun tok => EqualFold orbit value tok) = true) := by
  rintro ⟨h1, h2⟩
  obtain ⟨t, ht, het⟩ := (any_EqualFold orbit value boolTrueValues
    (fun tok h => tokens_ascii tok (List.mem_append_left _ h))).mp h1
  obtain ⟨f, hf, hef⟩ := (any_EqualFold orbit value boolFalseValues
    (fun tok h => tokens_ascii tok (List.mem_append_right _ h))).mp h2
  exact tokens_disjoint t ht f hf (het.symm.trans hef)

theorem not_EqUnderFold_nil : ∀ tok ∈ boolTrueValues ++ boolFalseValues, ¬ EqUnderFold [] tok := by
  decide

/-! ## Lemmas on `ParseFloat` -/

theorem commonPrefixLen_cons (c p : Char) (s ps : GoString) :
    commonPrefixLenIgnoreCase (c :: s) (p :: ps) =
      if lowerASCII c = p.toNat then 1 + commonPrefixLenIgnoreCase s ps else 0 := by
  rfl

theorem commonPrefixLen_le (s p : GoString) : commonPrefixLenIgnoreCase s p ≤ s.length := by
  induction s generalizing p with
  | nil => simp [commonPrefixLenIgnoreCase]
  | cons c s ih =>
    cases p with
    | nil => simp [commonPrefixLenIgnoreCase]
    | cons q ps =>
      rw [commonPrefixLen_cons]
      have := ih ps
      split_ifs with hc <;> simp only [List.length_cons] <;> omega

theorem commonPrefixLen_eq_length_iff (s p : GoString) (h : s.length ≤ p.length) :
    commonPrefixLenIgnoreCase s p = s.length ↔
      s.map lowerASCII = (p.take s.length).map Char.toNat := by
  induction s generalizing p with
  | nil => simp [commonPrefixLenIgnoreCase]
  | cons c s ih =>
    cases p with
    | nil => simp at h
    | cons q ps =>
      have h' : s.length ≤ ps.length := by simpa using h
      have hle := commonPrefixLen_le s ps
      rw [commonPrefixLen_cons]
      simp only [List.length_cons, List.take_succ_cons, List.map_cons, List.cons.injEq]
      rw [← ih ps h']
      by_cases hc : lowerASCII c = q.toNat
      · rw [if_pos hc]
        constructor
        · intro hh
          exact ⟨hc, by omega⟩
        · intro hh
          omega
      · rw [if_neg hc]
        constructor
        · intro hh
          omega
        · intro hh
          exact absurd hh.1 hc

theorem lowerASCII_eq_letter (c : Char) (k : Nat) (hk : 0x61 ≤ k ∧ k ≤ 0x7A) :
    lowerASCII c = k ↔ (c.toNat = k ∨ c.toNat + 0x20 = k) := by
  unfold lowerASCII
  split_ifs <;> omega

theorem special_nan {F : Type} (inf : Bool → F) (nan : F) (s : GoString)
    (h : s.map lowerASCII = "nan".toList.map Char.toNat) :
    special inf nan s = some (nan, s.length) := by
  have hlen : s.length = 3 := by
    have := congrArg List.length h
    simpa using this
  have hcpl : commonPrefixLenIgnoreCase s "nan".toList = 3 := by
    have := (commonPrefixLen_eq_length_iff s "nan".toList (by rw [hlen]; decide)).mpr
      (by rw [hlen]; exact h)
    rw [this, hlen]
  cases s with
  | nil => simp at hlen
  | cons c r =>
    have hc : lowerASCII c = 0x6E := by
      have := List.head_eq_of_cons_eq h
      exact this
    have hc' := (lowerASCII_eq_letter c 0x6E (by decide)).mp hc
    have e1 : '+'.toNat = 43 := rfl
    have e2 : '-'.toNat = 45 := rfl
    have e3 : 'i'.toNat = 105 := rfl
    have e4 : 'I'.toNat = 73 := rfl
    have e5 : 'n'.toNat = 110 := rfl
    have e6 : 'N'.toNat = 78 := rfl
    have h1 : ¬ (c = '+' ∨ c = '-') := by
      rw [char_eq_iff c '+', char_eq_iff c '-', e1, e2]
      omega
    have h2 : ¬ (c = 'i' ∨ c = 'I') := by
      rw [char_eq_iff c 'i', char_eq_iff c 'I', e3, e4]
      omega
    have h3 : c = 'n' ∨ c = 'N' := by
      rw [char_eq_iff c 'n', char_eq_iff c 'N', e5, e6]
      omega
    unfold special
    simp only [if_neg h1, if_neg h2, if_pos h3, hcpl, if_true, hlen]

theorem special_inf {F : Type} (inf : Bool → F) (nan : F) (s : GoString)
    (h : (stripSign s).map lowerASCII = "inf".toList.map Char.toNat
      ∨ (stripSign s).map lowerASCII = "infinity".toList.map Char.toNat) :
    special inf nan s = some (inf (decide (s.head? = some '-')), s.length) := by
  -- the length of the unsigned text and what `commonPrefixLenIgnoreCase` finds in it
  have hbody : ((stripSign s).length = 3 ∨ (stripSign s).length = 8)
      ∧ commonPrefixLenIgnoreCase (stripSign s) "infinity".toList = (stripSign s).length := by
    rcases h with h | h
    · have hlen : (stripSign s).length = 3 := by
        have := congrArg List.length h
        simpa using this
      refine ⟨Or.inl hlen, ?_⟩
      exact (commonPrefixLen_eq_length_iff _ _ (by rw [hlen]; decide)).mpr
        (by rw [hlen]; exact h)
    · have hlen : (stripSign s).length = 8 := by
        have := congrArg List.length h
        simpa using this
      refine ⟨Or.inr hlen, ?_⟩
      exact (commonPrefixLen_eq_length_iff _ _ (by rw [hlen]; decide)).mpr
        (by rw [hlen]; exact h)
  have hfirst : ∀ c r, stripSign s = c :: r → c = 'i' ∨ c = 'I' := by
    intro c r hs
    have hc : lowerASCII c = 0x69 := by
      rcases h with h | h
      · rw [hs] at h
        exact List.head_eq_of_cons_eq h
      · rw [hs] at h
        exact List.head_eq_of_cons_eq h
    have hc' := (lowerASCII_eq_letter c 0x69 (by decide)).mp hc
    have e3 : 'i'.toNat = 105 := rfl
    have e4 : 'I'.toNat = 73 := rfl
    rw [char_eq_iff c 'i', char_eq_iff c 'I', e3, e4]
    omega
  cases s with
  | nil =>
    rcases hbody.1 with h3 | h8
    · simp [stripSign] at h3
    · simp [stripSign] at h8
  | cons c r =>
    by_cases hsign : c = '+' ∨ c = '-'
    · have hs : stripSign (c :: r) = r := by simp [stripSign, hsign]
      rw [hs] at hbody
      have hneg : decide ((c :: r).head? = some '-') = (c == '-') := by
        by_cases hc : c = '-' <;> simp [hc]
      unfold special
      simp only [if_pos hsign, hbody.2, hneg]
      rcases hbody.1 with h3 | h8
      · simp [h3, Nat.add_comm]
      · simp [h8, Nat.add_comm]
    · have hs : stripSign (c :: r) = c :: r := by simp [stripSign, hsign]
      rw [hs] at hbody
      have hi := hfirst c r hs
      have hneg : decide ((c :: r).head? = some '-') = false := by
        have : c ≠ '-' := fun hc => hsign (Or.inr hc)
        simp [this]
      unfold special
      simp only [if_neg hsign, if_pos hi, hbody.2, hneg]
      rcases hbody.1 with h3 | h8
      · simp [h3]
      · simp [h8]

theorem special_whole {F : Type} (inf : Bool → F) (nan : F) (s : GoString) (f : F) (n : Nat)
    (h : special inf nan s = some (f, n)) (hn : n = s.length) : IsSpecialFloat s := by
  have key : ∀ t : GoString, ∀ k : Nat,
      (if 3 < commonPrefixLenIgnoreCase t "infinity".toList
          ∧ commonPrefixLenIgnoreCase t "infinity".toList < 8 then 3
        else commonPrefixLenIgnoreCase t "infinity".toList) = k →
      (k = 3 ∨ k = 8) → k = t.length →
      t.map lowerASCII = "inf".toList.map Char.toNat
        ∨ t.map lowerASCII = "infinity".toList.map Char.toNat := by
    intro t k hk hk38 hkt
    have hle := commonPrefixLen_le t "infinity".toList
    have hraw : commonPrefixLenIgnoreCase t "infinity".toList = t.length := by
      split_ifs at hk <;> omega
    have hlen8 : t.length ≤ "infinity".toList.length := by
      have : "infinity".toList.length = 8 := by decide
      omega
    have := (commonPrefixLen_eq_length_iff t _ hlen8).mp hraw
    rcases hk38 with h3 | h8
    · left
      rw [← hkt, h3] at this
      exact this
    · right
      rw [← hkt, h8] at this
      exact this
  cases s with
  | nil => simp [special] at h
  | cons c r =>
    by_cases hsign : c = '+' ∨ c = '-'
    · have hs : stripSign (c :: r) = r := by simp [stripSign, hsign]
      have hform : special inf nan (c :: r) =
          if (if 3 < commonPrefixLenIgnoreCase r "infinity".toList
                ∧ commonPrefixLenIgnoreCase r "infinity".toList < 8 then 3
              else commonPrefixLenIgnoreCase r "infinity".toList) = 3
            ∨ (if 3 < commonPrefixLenIgnoreCase r "infinity".toList
                ∧ commonPrefixLenIgnoreCase r "infinity".toList < 8 then 3
              else commonPrefixLenIgnoreCase r "infinity".toList) = 8 then
            some (inf (c == '-'), 1 + (if 3 < commonPrefixLenIgnoreCase r "infinity".toList
                ∧ commonPrefixLenIgnoreCase r "infinity".toList < 8 then 3
              else commonPrefixLenIgnoreCase r "infinity".toList))
          else none := by
        simp only [special, if_pos hsign]
      rw [hform] at h
      by_cases h38 : (if 3 < commonPrefixLenIgnoreCase r "infinity".toList
                ∧ commonPrefixLenIgnoreCase r "infinity".toList < 8 then 3
              else commonPrefixLenIgnoreCase r "infinity".toList) = 3
            ∨ (if 3 < commonPrefixLenIgnoreCase r "infinity".toList
                ∧ commonPrefixLenIgnoreCase r "infinity".toList < 8 then 3
              else commonPrefixLenIgnoreCase r "infinity".toList) = 8
      · rw [if_pos h38] at h
        simp only [Option.some.injEq, Prod.mk.injEq] at h
        have hlen : (c :: r).length = 1 + r.length := by simp [Nat.add_comm]
        have := key r _ rfl h38 (by omega)
        unfold IsSpecialFloat
        rw [hs]
        exact Or.inr this
      · rw [if_neg h38] at h
        exact Option.noConfusion h
    · have hs : stripSign (c :: r) = c :: r := by simp [stripSign, hsign]
      by_cases hi : c = 'i' ∨ c = 'I'
      · have hform : special inf nan (c :: r) =
            if (if 3 < commonPrefixLenIgnoreCase (c :: r) "infinity".toList
                  ∧ commonPrefixLenIgnoreCase (c :: r) "infinity".toList < 8 then 3
                else commonPrefixLenIgnoreCase (c :: r) "infinity".toList) = 3
              ∨ (if 3 < commonPrefixLenIgnoreCase (c :: r) "infinity".toList
                  ∧ commonPrefixLenIgnoreCase (c :: r) "infinity".toList < 8 then 3
                else commonPrefixLenIgnoreCase (c :: r) "infinity".toList) = 8 then
              some (inf false, (if 3 < commonPrefixLenIgnoreCase (c :: r) "infinity".toList
                  ∧ commonPrefixLenIgnoreCase (c :: r) "infinity".toList < 8 then 3
                else commonPrefixLenIgnoreCase (c :: r) "infinity".toList))
            else none := by
          simp only [special, if_neg hsign, if_pos hi]
        rw [hform] at h
        by_cases h38 : (if 3 < commonPrefixLenIgnoreCase (c :: r) "infinity".toList
                  ∧ commonPrefixLenIgnoreCase (c :: r) "infinity".toList < 8 then 3
                else commonPrefixLenIgnoreCase (c :: r) "infinity".toList) = 3
              ∨ (if 3 < commonPrefixLenIgnoreCase (c :: r) "infinity".toList
                  ∧ commonPrefixLenIgnoreCase (c :: r) "infinity".toList < 8 then 3
                else commonPrefixLenIgnoreCase (c :: r) "infinity".toList) = 8
        · rw [if_pos h38] at h
          simp only [Option.some.injEq, Prod.mk.injEq] at h
          have := key (c :: r) _ rfl h38 (by omega)
          unfold IsSpecialFloat
          rw [hs]
          exact Or.inr this
        · rw [if_neg h38] at h
          exact Option.noConfusion h
      · have hform : special inf nan (c :: r) =
            if c = 'n' ∨ c = 'N' then
              if commonPrefixLenIgnoreCase (c :: r) "nan".toList = 3 then some (nan, 3) else none
            else none := by
          simp only [special, if_neg hsign, if_neg hi]
        rw [hform] at h
        by_cases hnn : c = 'n' ∨ c = 'N'
        · rw [if_pos hnn] at h
          by_cases hcpl : commonPrefixLenIgnoreCase (c :: r) "nan".toList = 3
          · rw [if_pos hcpl] at h
            simp only [Option.some.injEq, Prod.mk.injEq] at h
            have hlen3 : (c :: r).length = 3 := by omega
            have := (commonPrefixLen_eq_length_iff (c :: r) "nan".toList
              (by rw [hlen3]; decide)).mp (by rw [hcpl, hlen3])
            rw [hlen3] at this
            exact Or.inl this
          · rw [if_neg hcpl] at h
            exact Option.noConfusion h
        · rw [if_neg hnn] at h
          exact Option.noConfusion h

theorem readFloatDigits_sawdot (cs : GoString) (sd : Bool) :
    readFloatDigits cs true sd
      = (cs.dropWhile isDigit, sd || !(cs.takeWhile isDigit).isEmpty) := by
  induction cs generalizing sd with
  | nil => simp [readFloatDigits]
  | cons c cs ih =>
    by_cases hdot : c = '.'
    · subst hdot
      have : isDigit '.' = false := by decide
      simp [readFloatDigits, List.dropWhile_cons, List.takeWhile_cons, this]
    · by_cases hd : isDigit c = true
      · simp [readFloatDigits, hdot, hd, ih, List.dropWhile_cons, List.takeWhile_cons]
      · simp [readFloatDigits, hdot, hd, List.dropWhile_cons, List.takeWhile_cons]

theorem readFloatDigits_start (cs : GoString) (sd : Bool) :
    readFloatDigits cs false sd =
      if (cs.dropWhile isDigit).head? = some '.' then
        (((cs.dropWhile isDigit).tail).dropWhile isDigit,
          sd || !(cs.takeWhile isDigit).isEmpty
            || !(((cs.dropWhile isDigit).tail).takeWhile isDigit).isEmpty)
      else (cs.dropWhile isDigit, sd || !(cs.takeWhile isDigit).isEmpty) := by
  induction cs generalizing sd with
  | nil => simp [readFloatDigits]
  | cons c cs ih =>
    by_cases hdot : c = '.'
    · subst hdot
      have : isDigit '.' = false := by decide
      simp [readFloatDigits, List.dropWhile_cons, List.takeWhile_cons, this,
        readFloatDigits_sawdot]
    · by_cases hd : isDigit c = true
      · rw [readFloatDigits, if_neg hdot, if_pos hd, ih]
        simp [List.dropWhile_cons, List.takeWhile_cons, hd]
      · simp [readFloatDigits, hdot, hd, List.dropWhile_cons, List.takeWhile_cons]

theorem readFloatExponent_iff (rest : GoString) :
    readFloatExponent rest = some [] ↔
      (rest = [] ∨ ((rest.head? = some 'e' ∨ rest.head? = some 'E')
        ∧ stripSign rest.tail ≠ [] ∧ ∀ c ∈ stripSign rest.tail, isDigit c = true)) := by
  cases rest with
  | nil => simp [readFloatExponent]
  | cons e r1 =>
    by_cases he : e = 'e' ∨ e = 'E'
    · have hhead : ((e :: r1).head? = some 'e' ∨ (e :: r1).head? = some 'E') := by
        simpa using he
      cases r1 with
      | nil => simp [readFloatExponent, he, stripSign]
      | cons sg r2 =>
        have hs : stripSign (sg :: r2) = (if sg = '+' ∨ sg = '-' then r2 else sg :: r2) := by
          simp [stripSign]
        simp only [readFloatExponent, if_pos he, List.tail_cons, hs]
        cases hr3 : (if sg = '+' ∨ sg = '-' then r2 else sg :: r2) with
        | nil => simp [hhead]
        | cons d r3 =>
          by_cases hd : isDigit d = true
          · simp only [if_pos hd, Option.some.injEq, List.dropWhile_eq_nil_iff]
            simp [he]
          · simp only [if_neg hd]
            simp [hhead, hd]
    · simp [readFloatExponent, he]

theorem IsFloatLiteral_iff (s : GoString) :
    IsFloatLiteral s ↔
      if ((stripSign s).dropWhile isDigit).head? = some '.' then
        ((stripSign s).takeWhile isDigit ≠ []
            ∨ (((stripSign s).dropWhile isDigit).tail).takeWhile isDigit ≠ [])
          ∧ readFloatExponent ((((stripSign s).dropWhile isDigit).tail).dropWhile isDigit)
            = some []
      else
        (stripSign s).takeWhile isDigit ≠ []
          ∧ readFloatExponent ((stripSign s).dropWhile isDigit) = some [] := by
  unfold IsFloatLiteral
  simp only [readFloatExponent_iff]
  cases h : (stripSign s).dropWhile isDigit with
  | nil => simp
  | cons x t =>
    by_cases hx : x = '.'
    · subst hx
      simp
    · have hne : ¬ ((x :: t).head? = some '.') := by simpa using hx
      rw [if_neg hne]
      split
      · rename_i r heq
        simp only [List.cons.injEq] at heq
        exact absurd heq.1 hx
      · simp

theorem readFloat_iff (s : GoString) : readFloat s = some [] ↔ IsFloatLiteral s := by
  rw [IsFloatLiteral_iff]
  cases s with
  | nil => simp [readFloat, stripSign]
  | cons c r =>
    have hs : (if c = '+' ∨ c = '-' then r else c :: r) = stripSign (c :: r) := by
      simp [stripSign]
    simp only [readFloat, hs, readFloatDigits_start]
    by_cases hdot : ((stripSign (c :: r)).dropWhile isDigit).head? = some '.'
    · simp only [if_pos hdot]
      by_cases h1 : (stripSign (c :: r)).takeWhile isDigit = []
      · by_cases h2 : (((stripSign (c :: r)).dropWhile isDigit).tail).takeWhile isDigit = []
        · simp [h1, h2]
        · simp [h1, h2]
      · simp [h1]
    · simp only [if_neg hdot]
      by_cases h1 : (stripSign (c :: r)).takeWhile isDigit = []
      · simp [h1]
      · simp [h1]

theorem mem_stripSign_or {s : GoString} {c : Char} (h : c ∈ s) :
    c = '+' ∨ c = '-' ∨ c ∈ stripSign s := by
  cases s with
  | nil => simp at h
  | cons a r =>
    by_cases ha : a = '+' ∨ a = '-'
    · rcases List.mem_cons.mp h with rfl | hr
      · rcases ha with ha | ha
        · exact Or.inl ha
        · exact Or.inr (Or.inl ha)
      · right
        right
        simpa [stripSign, ha] using hr
    · right
      right
      simpa [stripSign, ha] using h

theorem readFloatExponent_chars {rest : GoString} (h : readFloatExponent rest = some []) :
    ∀ c ∈ rest, isDigit c = true ∨ c = '+' ∨ c = '-' ∨ c = 'e' ∨ c = 'E' := by
  intro c hc
  rcases (readFloatExponent_iff rest).mp h with h0 | ⟨hhead, -, hdig⟩
  · rw [h0] at hc
    simp at hc
  · cases rest with
    | nil => simp at hc
    | cons e r1 =>
      rcases List.mem_cons.mp hc with rfl | hc1
      · simp only [List.head?_cons, Option.some.injEq] at hhead
        rcases hhead with hh | hh
        · exact Or.inr (Or.inr (Or.inr (Or.inl hh)))
        · exact Or.inr (Or.inr (Or.inr (Or.inr hh)))
      · rcases mem_stripSign_or hc1 with hp | hm | hs
        · exact Or.inr (Or.inl hp)
        · exact Or.inr (Or.inr (Or.inl hm))
        · exact Or.inl (hdig c (by simpa using hs))

theorem IsFloatLiteral_chars {s : GoString} (h : IsFloatLiteral s) :
    ∀ c ∈ s, isDigit c = true ∨ c = '+' ∨ c = '-' ∨ c = '.' ∨ c = 'e' ∨ c = 'E' := by
  have widen : ∀ c : Char, (isDigit c = true ∨ c = '+' ∨ c = '-' ∨ c = 'e' ∨ c = 'E') →
      (isDigit c = true ∨ c = '+' ∨ c = '-' ∨ c = '.' ∨ c = 'e' ∨ c = 'E') := by
    intro c hc
    rcases hc with h1 | h1 | h1 | h1 | h1
    · exact Or.inl h1
    · exact Or.inr (Or.inl h1)
    · exact Or.inr (Or.inr (Or.inl h1))
    · exact Or.inr (Or.inr (Or.inr (Or.inr (Or.inl h1))))
    · exact Or.inr (Or.inr (Or.inr (Or.inr (Or.inr h1))))
  have digitsOf : ∀ (t : GoString) (c : Char), c ∈ t.takeWhile isDigit → isDigit c = true :=
    fun t c hc => List.mem_takeWhile_imp hc
  have hparts := (IsFloatLiteral_iff s).mp h
  intro c hc
  rcases mem_stripSign_or hc with hp | hm | hb
  · exact Or.inr (Or.inl hp)
  · exact Or.inr (Or.inr (Or.inl hm))
  · rw [← List.takeWhile_append_dropWhile isDigit (stripSign s)] at hb
    rcases List.mem_append.mp hb with hi | ha
    · exact Or.inl (digitsOf _ c hi)
    · by_cases hdot : ((stripSign s).dropWhile isDigit).head? = some '.'
      · rw [if_pos hdot] at hparts
        cases hai : (stripSign s).dropWhile isDigit with
        | nil =>
          rw [hai] at ha
          simp at ha
        | cons x t =>
          rw [hai] at ha hdot hparts
          simp only [List.head?_cons, Option.some.injEq] at hdot
          simp only [List.tail_cons] at hparts
          rcases List.mem_cons.mp ha with hx | ht
          · exact Or.inr (Or.inr (Or.inr (Or.inl (hx.trans hdot))))
          · rw [← List.takeWhile_append_dropWhile isDigit t] at ht
            rcases List.mem_append.mp ht with hf | he
            · exact Or.inl (digitsOf _ c hf)
            · exact widen c (readFloatExponent_chars hparts.2 c he)
      · rw [if_neg hdot] at hparts
        exact widen c (readFloatExponent_chars hparts.2 c ha)

theorem special_some_mem {F : Type} (inf : Bool → F) (nan : F) (s : GoString) (x : F × Nat)
    (h : special inf nan s = some x) : ∃ c ∈ s, c = 'i' ∨ c = 'I' ∨ c = 'n' ∨ c = 'N' := by
  cases s with
  | nil => simp [special] at h
  | cons c r =>
    by_cases hsign : c = '+' ∨ c = '-'
    · -- after a sign at least three characters of `infinity` are matched
      have hpos : 0 < commonPrefixLenIgnoreCase r "infinity".toList := by
        by_contra hzero
        have h0 : commonPrefixLenIgnoreCase r "infinity".toList = 0 := by omega
        unfold special at h
        simp only [if_pos hsign, h0] at h
        simp at h
      cases r with
      | nil => simp [commonPrefixLenIgnoreCase] at hpos
      | cons a r' =>
        have hstep : commonPrefixLenIgnoreCase (a :: r') "infinity".toList
            = if lowerASCII a = 'i'.toNat then
                1 + commonPrefixLenIgnoreCase r' "nfinity".toList else 0 := rfl
        have ha : lowerASCII a = 0x69 := by
          by_contra hne
          have e : 'i'.toNat = 0x69 := rfl
          rw [hstep, e, if_neg hne] at hpos
          exact Nat.lt_irrefl 0 hpos
        have ha' := (lowerASCII_eq_letter a 0x69 (by decide)).mp ha
        have e3 : 'i'.toNat = 105 := rfl
        have e4 : 'I'.toNat = 73 := rfl
        have hi : a = 'i' ∨ a = 'I' := by
          rw [char_eq_iff a 'i', char_eq_iff a 'I', e3, e4]
          omega
        refine ⟨a, by simp, ?_⟩
        rcases hi with hi | hi
        · exact Or.inl hi
        · exact Or.inr (Or.inl hi)
    · by_cases hi : c = 'i' ∨ c = 'I'
      · refine ⟨c, by simp, ?_⟩
        rcases hi with hi | hi
        · exact Or.inl hi
        · exact Or.inr (Or.inl hi)
      · by_cases hn : c = 'n' ∨ c = 'N'
        · refine ⟨c, by simp, ?_⟩
          rcases hn with hn | hn
          · exact Or.inr (Or.inr (Or.inl hn))
          · exact Or.inr (Or.inr (Or.inr hn))
        · simp [special, hsign, hi, hn] at h

theorem hasHexPrefix_mem (s : GoString) (h : hasHexPrefix s = true) :
    ∃ c ∈ s, c = 'x' ∨ c = 'X' := by
  cases s with
  | nil => simp [hasHexPrefix] at h
  | cons c r =>
    by_cases hsign : c = '+' ∨ c = '-'
    · rcases r with _ | ⟨z, _ | ⟨x, _ | ⟨y, t⟩⟩⟩
      · simp [hasHexPrefix, hsign] at h
      · simp [hasHexPrefix, hsign] at h
      · simp [hasHexPrefix, hsign] at h
      · simp only [hasHexPrefix, if_pos hsign, Bool.and_eq_true, Bool.or_eq_true,
          beq_iff_eq] at h
        exact ⟨x, by simp, h.2⟩
    · rcases r with _ | ⟨x, _ | ⟨y, t⟩⟩
      · simp [hasHexPrefix, hsign] at h
      · simp [hasHexPrefix, hsign] at h
      · simp only [hasHexPrefix, if_neg hsign, Bool.and_eq_true, Bool.or_eq_true,
          beq_iff_eq] at h
        exact ⟨x, by simp, h.2⟩

theorem not_literal_char (c : Char)
    (hc : c = 'i' ∨ c = 'I' ∨ c = 'n' ∨ c = 'N' ∨ c = 'x' ∨ c = 'X' ∨ c = '_') :
    ¬ (isDigit c = true ∨ c = '+' ∨ c = '-' ∨ c = '.' ∨ c = 'e' ∨ c = 'E') := by
  rcases hc with h | h | h | h | h | h | h <;> subst h <;> decide

theorem ParseFloat_literal {F : Type} (inf : Bool → F) (nan : F)
    (atofDecimal : GoString → F × Bool) (atofOther : GoString → Option F) (s : GoString)
    (h : IsFloatLiteral s) :
    ParseFloat inf nan atofDecimal atofOther s =
      if (atofDecimal s).2 = true then none else some (atofDecimal s).1 := by
  have hchars := IsFloatLiteral_chars h
  have hspecial : special inf nan s = none := by
    cases hsp : special inf nan s with
    | none => rfl
    | some x =>
      obtain ⟨c, hc, hc'⟩ := special_some_mem inf nan s x hsp
      refine absurd (hchars c hc) (not_literal_char c ?_)
      rcases hc' with h1 | h1 | h1 | h1
      · exact Or.inl h1
      · exact Or.inr (Or.inl h1)
      · exact Or.inr (Or.inr (Or.inl h1))
      · exact Or.inr (Or.inr (Or.inr (Or.inl h1)))
  have hguard : ¬ ('_' ∈ s ∨ hasHexPrefix s = true) := by
    rintro (hu | hx)
    · exact not_literal_char '_' (by decide) (hchars '_' hu)
    · obtain ⟨c, hc, hc'⟩ := hasHexPrefix_mem s hx
      refine absurd (hchars c hc) (not_literal_char c ?_)
      rcases hc' with h1 | h1
      · exact Or.inr (Or.inr (Or.inr (Or.inr (Or.inl h1))))
      · exact Or.inr (Or.inr (Or.inr (Or.inr (Or.inr (Or.inl h1)))))
  have hread := (readFloat_iff s).mpr h
  simp only [ParseFloat, hspecial, if_neg hguard, hread, ne_eq, not_true_eq_false, if_false]

theorem ParseFloat_reject {F : Type} (inf : Bool → F) (nan : F)
    (atofDecimal : GoString → F × Bool) (atofOther : GoString → Option F) (s : GoString)
    (hlit : ¬ IsFloatLiteral s) (hspec : ¬ IsSpecialFloat s) (hus : '_' ∉ s)
    (hhex : hasHexPrefix s = false) :
    ParseFloat inf nan atofDecimal atofOther s = none := by
  have hguard : ¬ ('_' ∈ s ∨ hasHexPrefix s = true) := by
    rintro (hu | hx)
    · exact hus hu
    · rw [hhex] at hx
      exact Bool.noConfusion hx
  unfold ParseFloat
  cases hsp : special inf nan s with
  | some x =>
    obtain ⟨f, n⟩ := x
    have hn : ¬ n = s.length := fun hn => hspec (special_whole inf nan s f n hsp hn)
    simp only [if_neg hn]
  | none =>
    simp only [if_neg hguard]
    cases hr : readFloat s with
    | none => rfl
    | some rest =>
      have hrest : rest ≠ [] := by
        intro h0
        rw [h0] at hr
        exact hlit ((readFloat_iff s).mp hr)
      simp only [if_pos hrest]

theorem ParseFloat_nan {F : Type} (inf : Bool → F) (nan : F)
    (atofDecimal : GoString → F × Bool) (atofOther : GoString → Option F) (s : GoString)
    (h : s.map lowerASCII = "nan".toList.map Char.toNat) :
    ParseFloat inf nan atofDecimal atofOther s = some nan := by
  simp only [ParseFloat, special_nan inf nan s h, if_true]

theorem ParseFloat_inf {F : Type} (inf : Bool → F) (nan : F)
    (atofDecimal : GoString → F × Bool) (atofOther : GoString → Option F) (s : GoString)
    (h : (stripSign s).map lowerASCII = "inf".toList.map Char.toNat
      ∨ (stripSign s).map lowerASCII = "infinity".toList.map Char.toNat) :
    ParseFloat inf nan atofDecimal atofOther s = some (inf (decide (s.head? = some '-'))) := by
  simp only [ParseFloat, special_inf inf nan s h, if_true]

/-! ## The claims -/

/-- C1 (amended): for every file content and every line of it that is a
key/value line with key `k` and value `v`, after `LoadConfiguration` of that
content `HasKey(k)` is true; and when no later line of the content is a
key/value line with the same key `k` (`lineKey` of it is not `k`),
`GetString(k, d)` equals `v` for every default `d`. -/
theorem C1_key_value_line_loaded (readFile : GoString → Except GoString GoString)
    (fileName content : GoString) (pre post : List GoString) (line k v : GoString)
    (hread : readFile fileName = Except.ok content)
    (hlines : Split content '\n' = pre ++ line :: post)
    (hline : IsKeyValueLine line k v) :
    (LoadConfiguration readFile fileName).1.HasKey k = true
      ∧ ((∀ l ∈ post, lineKey l ≠ some k) →
          ∀ d, (LoadConfiguration readFile fileName).1.GetString k d = v) := by
  have he := lineEntry_eq_some.mpr hline
  simp only [LoadConfiguration, loadPropertyFile_ok hread, hlines, Configuration.HasKey,
    Configuration.GetString]
  refine ⟨foldl_loadLine_hasKey pre post line _ k v he, ?_⟩
  intro hpost d
  rw [foldl_loadLine_last pre post line _ k v he
    (fun l hl w hw => hpost l hl (by simp [lineKey, hw]))]

/-- C1, witness: the content `a=1`, newline, `b = 2`, at its first line. -/
theorem C1_key_value_line_loaded_witness :
    (LoadConfiguration (fun _ => Except.ok "a=1\nb = 2".toList) "f".toList).1.HasKey "a".toList
        = true
      ∧ ∀ d, (LoadConfiguration (fun _ => Except.ok "a=1\nb = 2".toList)
            "f".toList).1.GetString "a".toList d = "1".toList :=
  ⟨(C1_key_value_line_loaded (fun _ => Except.ok "a=1\nb = 2".toList) "f".toList
      "a=1\nb = 2".toList [] ["b = 2".toList] "a=1".toList "a".toList "1".toList
      rfl (by decide) (by decide)).1,
   (C1_key_value_line_loaded (fun _ => Except.ok "a=1\nb = 2".toList) "f".toList
      "a=1\nb = 2".toList [] ["b = 2".toList] "a=1".toList "a".toList "1".toList
      rfl (by decide) (by decide)).2 (by decide)⟩

/-- C1, counterexample: in the content `a=1`, newline, `a=2` the first line is
a key/value line with key `a` and value `1`, yet `GetString` of `a` is `2`. -/
theorem C1_counterexample :
    "a=1".toList ∈ Split "a=1\na=2".toList '\n'
      ∧ IsKeyValueLine "a=1".toList "a".toList "1".toList
      ∧ (LoadConfiguration (fun _ => Except.ok "a=1\na=2".toList) "f".toList).1.GetString
          "a".toList "d".toList = "2".toList
      ∧ (LoadConfiguration (fun _ => Except.ok "a=1\na=2".toList) "f".toList).1.GetString
          "a".toList "d".toList ≠ "1".toList := by
  decide

/-- C2: for every configuration and every key that is not in its mapping,
`HasKey` is false and `GetString`, `GetInt`, `GetFloat` and `GetBool` return
exactly the supplied default, the last three with a nil error. -/
theorem C2_absent_key_defaults {F : Type} (ParseFloat : GoString → Option F)
    (fmtFloat : F → GoString) (intSize : Nat) (orbit : Char → Char → Bool)
    (c : Configuration) (key : GoString) (habsent : c.properties key = none) :
    c.HasKey key = false
      ∧ (∀ d, c.GetString key d = d)
      ∧ (∀ d, c.GetInt intSize key d = (d, none))
      ∧ (∀ d, c.GetFloat ParseFloat fmtFloat key d = (d, none))
      ∧ (∀ d, c.GetBool orbit key d = (d, none)) := by
  simp [Configuration.HasKey, Configuration.GetString, Configuration.GetInt,
    Configuration.GetFloat, Configuration.GetBool, habsent]

/-- C2, witness: the configuration loaded from `key1=874`, asked for the key
`dontexist`. -/
theorem C2_absent_key_defaults_witness :
    (LoadConfiguration (fun _ => Except.ok "key1=874".toList) "f".toList).1.HasKey
        "dontexist".toList = false
      ∧ (∀ d, (LoadConfiguration (fun _ => Except.ok "key1=874".toList) "f".toList).1.GetString
          "dontexist".toList d = d)
      ∧ (∀ d, (LoadConfiguration (fun _ => Except.ok "key1=874".toList) "f".toList).1.GetInt 64
          "dontexist".toList d = (d, none))
      ∧ (∀ d : Nat, (LoadConfiguration (fun _ => Except.ok "key1=874".toList)
          "f".toList).1.GetFloat (fun _ => none) (fun _ => []) "dontexist".toList d = (d, none))
      ∧ (∀ d, (LoadConfiguration (fun _ => Except.ok "key1=874".toList) "f".toList).1.GetBool
          (fun _ _ => false) "dontexist".toList d = (d, none)) :=
  C2_absent_key_defaults (fun _ => none) (fun _ => []) 64 (fun _ _ => false)
    (LoadConfiguration (fun _ => Except.ok "key1=874".toList) "f".toList).1
    "dontexist".toList (by decide)

/-- C3: for every key present in the mapping whose stored value is a signed
decimal literal (an optional single `+` or `-` followed by one or more ASCII
decimal digits) denoting an integer `n` that fits in the `int` type,
`GetInt(key, d)` returns `(n, nil)` for every default `d`; in particular,
storing the decimal rendering of any `int` `n` and reading it back with
`GetInt` yields `n`. -/
theorem C3_getInt_parses_literal (intSize : Nat) (hsize : intSize = 32 ∨ intSize = 64)
    (c : Configuration) (key : GoString) :
    (∀ value, c.properties key = some value → IsIntLiteral value →
        FitsInt intSize (literalValue value) →
        ∀ d, c.GetInt intSize key d = (literalValue value, none))
      ∧ (∀ n, FitsInt intSize n → c.properties key = some (Itoa n) →
        ∀ d, c.GetInt intSize key d = (n, none)) := by
  have main : ∀ value, c.properties key = some value → IsIntLiteral value →
      FitsInt intSize (literalValue value) →
      ∀ d, c.GetInt intSize key d = (literalValue value, none) := by
    intro value hstored hlit hfit d
    rw [GetInt_stored _ _ _ _ _ hstored, Atoi_literal _ hsize _ hlit, if_pos hfit]
    simp
  refine ⟨main, ?_⟩
  intro n hfit hstored d
  have h := Itoa_literal n
  have := main (Itoa n) hstored h.1 (by rw [h.2]; exact hfit) d
  rw [h.2] at this
  exact this

/-- C3, witness: the value `874` of the test, and the rendering of `-120`. -/
theorem C3_getInt_parses_literal_witness :
    (∀ d, (LoadConfiguration (fun _ => Except.ok "key1=874".toList) "f".toList).1.GetInt 64
        "key1".toList d = (874, none))
      ∧ (∀ d, (Configuration.mk (fun _ => some (Itoa (-120)))).GetInt 32 "k".toList d
        = (-120, none)) :=
  ⟨(C3_getInt_parses_literal 64 (Or.inr rfl)
      (LoadConfiguration (fun _ => Except.ok "key1=874".toList) "f".toList).1 "key1".toList).1
      "874".toList (by decide) (by decide) (by decide),
   (C3_getInt_parses_literal 32 (Or.inl rfl) (Configuration.mk (fun _ => some (Itoa (-120))))
      "k".toList).2 (-120) (by decide) rfl⟩

/-- C4: for every key present in the mapping whose stored value is not a
signed decimal literal (not an optional `+` or `-` followed by one or more
ASCII decimal digits), `GetInt(key, d)` returns the default `d` together with
a non-nil error, for every `d`. -/
theorem C4_getInt_rejects_non_literal (intSize : Nat) (hsize : intSize = 32 ∨ intSize = 64)
    (c : Configuration) (key value : GoString) (hstored : c.properties key = some value)
    (hnot : ¬ IsIntLiteral value) :
    ∀ d, (c.GetInt intSize key d).1 = d ∧ (c.GetInt intSize key d).2 ≠ none := by
  intro d
  rw [GetInt_stored _ _ _ _ _ hstored, if_pos (Atoi_not_literal _ hsize _ hnot)]
  simp

/-- C4, witness: the values `invalid int` and `3.14` of the test. -/
theorem C4_getInt_rejects_non_literal_witness :
    (∀ d, ((LoadConfiguration (fun _ => Except.ok "key1=874\nkey2=invalid int\nkey3=3.14".toList)
          "f".toList).1.GetInt 64 "key2".toList d).1 = d
      ∧ ((LoadConfiguration (fun _ => Except.ok "key1=874\nkey2=invalid int\nkey3=3.14".toList)
          "f".toList).1.GetInt 64 "key2".toList d).2 ≠ none)
    ∧ (∀ d, ((LoadConfiguration (fun _ => Except.ok "key1=874\nkey2=invalid int\nkey3=3.14".toList)
          "f".toList).1.GetInt 32 "key3".toList d).1 = d
      ∧ ((LoadConfiguration (fun _ => Except.ok "key1=874\nkey2=invalid int\nkey3=3.14".toList)
          "f".toList).1.GetInt 32 "key3".toList d).2 ≠ none) :=
  ⟨C4_getInt_rejects_non_literal 64 (Or.inr rfl)
    (LoadConfiguration (fun _ => Except.ok "key1=874\nkey2=invalid int\nkey3=3.14".toList)
      "f".toList).1 "key2".toList "invalid int".toList (by decide) (by decide),
   C4_getInt_rejects_non_literal 32 (Or.inl rfl)
    (LoadConfiguration (fun _ => Except.ok "key1=874\nkey2=invalid int\nkey3=3.14".toList)
      "f".toList).1 "key3".toList "3.14".toList (by decide) (by decide)⟩

/-- C5: for every key present in the mapping whose stored value is one of the
tokens of `boolTrueValues` (on, true, yes, enable, enabled, 1) written with
any mix of upper- and lower-case ASCII letters, `GetBool(key, d)` returns
`(true, nil)` for both defaults `d`; and when it is one of the tokens of
`boolFalseValues` (off, false, no, disable, disabled, 0) in any mix of case,
`GetBool(key, d)` returns `(false, nil)` for both defaults `d`. -/
theorem C5_getBool_accepts_tokens (orbit : Char → Char → Bool) (c : Configuration)
    (key value : GoString) (hstored : c.properties key = some value) :
    ((∃ tok ∈ boolTrueValues, EqIgnoringASCIICase value tok) →
        ∀ d, c.GetBool orbit key d = (true, none))
      ∧ ((∃ tok ∈ boolFalseValues, EqIgnoringASCIICase value tok) →
        ∀ d, c.GetBool orbit key d = (false, none)) := by
  constructor
  · rintro ⟨tok, htok, he⟩ d
    have hf := EqUnderFold_of_EqIgnoringASCIICase value tok
      (tokens_ascii tok (List.mem_append_left _ htok)) he
    rw [GetBool_stored orbit c key value d hstored, if_pos ⟨tok, htok, hf⟩]
  · rintro ⟨tok, htok, he⟩ d
    have hf := EqUnderFold_of_EqIgnoringASCIICase value tok
      (tokens_ascii tok (List.mem_append_right _ htok)) he
    have hnt : ¬ ∃ t ∈ boolTrueValues, EqUnderFold value t := by
      rintro ⟨t, ht, het⟩
      exact tokens_disjoint t ht tok htok (het.symm.trans hf)
    rw [GetBool_stored orbit c key value d hstored, if_neg hnt, if_pos ⟨tok, htok, hf⟩]

/-- C5, witness: the stored values `eNaBlEd` and `OFF`. -/
theorem C5_getBool_accepts_tokens_witness :
    (∀ d, (LoadConfiguration (fun _ => Except.ok "a = eNaBlEd\nb = OFF".toList)
        "f".toList).1.GetBool (fun _ _ => false) "a".toList d = (true, none))
      ∧ (∀ d, (LoadConfiguration (fun _ => Except.ok "a = eNaBlEd\nb = OFF".toList)
        "f".toList).1.GetBool (fun _ _ => false) "b".toList d = (false, none)) :=
  ⟨(C5_getBool_accepts_tokens (fun _ _ => false)
      (LoadConfiguration (fun _ => Except.ok "a = eNaBlEd\nb = OFF".toList) "f".toList).1
      "a".toList "eNaBlEd".toList (by decide)).1 (by decide),
   (C5_getBool_accepts_tokens (fun _ _ => false)
      (LoadConfiguration (fun _ => Except.ok "a = eNaBlEd\nb = OFF".toList) "f".toList).1
      "b".toList "OFF".toList (by decide)).2 (by decide)⟩

/-- C6 (amended): for every key present in the mapping whose stored value,
compared as a whole under the case folding `strings.EqualFold` applies (the
case of ASCII letters is ignored, and the long s U+017F counts as `s` and the
Kelvin sign U+212A as `k`), is none of the twelve tokens, `GetBool(key, d)`
returns the default `d` together with a non-nil error. -/
theorem C6_getBool_rejects_other_values (orbit : Char → Char → Bool) (c : Configuration)
    (key value : GoString) (hstored : c.properties key = some value)
    (hnone : ∀ tok ∈ boolTrueValues ++ boolFalseValues, ¬ EqUnderFold value tok) :
    ∀ d, (c.GetBool orbit key d).1 = d ∧ (c.GetBool orbit key d).2 ≠ none := by
  intro d
  have h1 : ¬ ∃ tok ∈ boolTrueValues, EqUnderFold value tok := by
    rintro ⟨tok, htok, he⟩
    exact hnone tok (List.mem_append_left _ htok) he
  have h2 : ¬ ∃ tok ∈ boolFalseValues, EqUnderFold value tok := by
    rintro ⟨tok, htok, he⟩
    exact hnone tok (List.mem_append_right _ htok) he
  rw [GetBool_stored orbit c key value d hstored, if_neg h1, if_neg h2]
  simp

/-- C6, witness: the stored values `fake`, `tru` and `yes please`. -/
theorem C6_getBool_rejects_other_values_witness :
    (∀ d, ((Configuration.mk (fun _ => some "fake".toList)).GetBool (fun _ _ => false)
          "k".toList d).1 = d
        ∧ ((Configuration.mk (fun _ => some "fake".toList)).GetBool (fun _ _ => false)
          "k".toList d).2 ≠ none)
      ∧ (∀ d, ((Configuration.mk (fun _ => some "tru".toList)).GetBool (fun _ _ => false)
          "k".toList d).1 = d
        ∧ ((Configuration.mk (fun _ => some "tru".toList)).GetBool (fun _ _ => false)
          "k".toList d).2 ≠ none)
      ∧ (∀ d, ((Configuration.mk (fun _ => some "yes please".toList)).GetBool (fun _ _ => false)
          "k".toList d).1 = d
        ∧ ((Configuration.mk (fun _ => some "yes please".toList)).GetBool (fun _ _ => false)
          "k".toList d).2 ≠ none) :=
  ⟨C6_getBool_rejects_other_values (fun _ _ => false) (Configuration.mk (fun _ => some "fake".toList))
      "k".toList "fake".toList rfl (by decide),
   C6_getBool_rejects_other_values (fun _ _ => false) (Configuration.mk (fun _ => some "tru".toList))
      "k".toList "tru".toList rfl (by decide),
   C6_getBool_rejects_other_values (fun _ _ => false)
      (Configuration.mk (fun _ => some "yes please".toList))
      "k".toList "yes please".toList rfl (by decide)⟩

/-- C6, counterexample: the value `yeſ`, written with the long s U+017F, is
none of the twelve tokens when only the case of ASCII letters is ignored, yet
`GetBool` returns `(true, nil)` for it and not the default `false` with an
error. -/
theorem C6_counterexample :
    (∀ tok ∈ boolTrueValues ++ boolFalseValues, ¬ EqIgnoringASCIICase "yeſ".toList tok)
      ∧ (LoadConfiguration (fun _ => Except.ok "k=yeſ".toList) "f".toList).1.properties
          "k".toList = some "yeſ".toList
      ∧ (∀ orbit d, (LoadConfiguration (fun _ => Except.ok "k=yeſ".toList) "f".toList).1.GetBool
          orbit "k".toList d = (true, none)) := by
  refine ⟨by decide, by decide, ?_⟩
  intro orbit d
  rw [GetBool_stored orbit _ "k".toList "yeſ".toList d (by decide),
    if_pos ⟨"yes".toList, by decide, by decide⟩]

/-- C7: when reading the file fails, `LoadConfiguration` returns a non-nil
error and a configuration with an empty mapping, so `HasKey` is false for
every key and every accessor returns its default; when the read succeeds the
returned error is nil whatever the content is. -/
theorem C7_read_failure_empty {F : Type} (ParseFloat : GoString → Option F)
    (fmtFloat : F → GoString) (intSize : Nat) (orbit : Char → Char → Bool)
    (readFile : GoString → Except GoString GoString) (fileName : GoString) :
    (∀ e, readFile fileName = Except.error e →
      (LoadConfiguration readFile fileName).2 ≠ none
        ∧ (LoadConfiguration readFile fileName).1.properties = (fun _ => none)
        ∧ ∀ k, (LoadConfiguration readFile fileName).1.HasKey k = false
          ∧ (∀ d, (LoadConfiguration readFile fileName).1.GetString k d = d)
          ∧ (∀ d, (LoadConfiguration readFile fileName).1.GetInt intSize k d = (d, none))
          ∧ (∀ d, (LoadConfiguration readFile fileName).1.GetFloat ParseFloat fmtFloat k d
              = (d, none))
          ∧ (∀ d, (LoadConfiguration readFile fileName).1.GetBool orbit k d = (d, none)))
      ∧ (∀ content, readFile fileName = Except.ok content →
          (LoadConfiguration readFile fileName).2 = none) := by
  constructor
  · intro e he
    simp [LoadConfiguration, loadPropertyFile_error he, Configuration.HasKey,
      Configuration.GetString, Configuration.GetInt, Configuration.GetFloat,
      Configuration.GetBool]
  · intro content hc
    simp [LoadConfiguration, loadPropertyFile_ok hc]

/-- C7, witness: a file system that holds no file, asked for `dont_exist.cfg`,
and one that holds a file with the content `x`. -/
theorem C7_read_failure_empty_witness :
    ((LoadConfiguration (fun _ => Except.error "no such file".toList)
        "dont_exist.cfg".toList).2 ≠ none
      ∧ (LoadConfiguration (fun _ => Except.error "no such file".toList)
        "dont_exist.cfg".toList).1.HasKey "key1".toList = false)
      ∧ (LoadConfiguration (fun _ => Except.ok "x".toList) "f".toList).2 = none :=
  ⟨⟨((C7_read_failure_empty (fun _ => (none : Option Nat)) (fun _ => []) 64 (fun _ _ => false)
        (fun _ => Except.error "no such file".toList) "dont_exist.cfg".toList).1
        "no such file".toList rfl).1,
    (((C7_read_failure_empty (fun _ => (none : Option Nat)) (fun _ => []) 64 (fun _ _ => false)
        (fun _ => Except.error "no such file".toList) "dont_exist.cfg".toList).1
        "no such file".toList rfl).2.2 "key1".toList).1⟩,
   (C7_read_failure_empty (fun _ => (none : Option Nat)) (fun _ => []) 64 (fun _ _ => false)
        (fun _ => Except.ok "x".toList) "f".toList).2 "x".toList rfl⟩

/-- C8: for every file content, when `last` is the last line in file order
among the key/value lines with the trimmed key `k`, the value stored for `k`
after loading, and returned by `GetString(k, d)`, is the trimmed value of
`last`. -/
theorem C8_duplicate_key_last_wins (readFile : GoString → Except GoString GoString)
    (fileName content k last v : GoString)
    (hread : readFile fileName = Except.ok content)
    (hlast : ((Split content '\n').filter (fun l => decide (lineKey l = some k))).getLast?
      = some last)
    (hv : IsKeyValueLine last k v) :
    (LoadConfiguration readFile fileName).1.properties k = some v
      ∧ ∀ d, (LoadConfiguration readFile fileName).1.GetString k d = v := by
  obtain ⟨pre, post, hsplit, -, hpost⟩ := getLast?_filter_split _ _ _ hlast
  have he := lineEntry_eq_some.mpr hv
  have hstored : (LoadConfiguration readFile fileName).1.properties k = some v := by
    simp only [LoadConfiguration, loadPropertyFile_ok hread, hsplit]
    apply foldl_loadLine_last pre post last _ k v he
    intro l hl w hw
    have := hpost l hl
    simp [lineKey, hw] at this
  exact ⟨hstored, fun d => by simp [Configuration.GetString, hstored]⟩

/-- C8, witness: three lines, the first and the last with the key `a`. -/
theorem C8_duplicate_key_last_wins_witness :
    (LoadConfiguration (fun _ => Except.ok "a=1\nb=2\n a = 3 ".toList) "f".toList).1.properties
        "a".toList = some "3".toList
      ∧ ∀ d, (LoadConfiguration (fun _ => Except.ok "a=1\nb=2\n a = 3 ".toList)
          "f".toList).1.GetString "a".toList d = "3".toList :=
  C8_duplicate_key_last_wins (fun _ => Except.ok "a=1\nb=2\n a = 3 ".toList) "f".toList
    "a=1\nb=2\n a = 3 ".toList "a".toList " a = 3 ".toList "3".toList rfl (by decide) (by decide)

/-- C9: for every file content, every key of the loaded mapping comes from a
key/value line of the content; and a content made only of blank lines,
comment lines, lines without `=` and lines whose key part is empty loads to
an empty mapping with a nil error. -/
theorem C9_keys_come_from_lines (readFile : GoString → Except GoString GoString)
    (fileName content : GoString) (hread : readFile fileName = Except.ok content) :
    (∀ k, (LoadConfiguration readFile fileName).1.HasKey k = true →
        ∃ line ∈ Split content '\n', ∃ v, IsKeyValueLine line k v)
      ∧ ((∀ line ∈ Split content '\n', IsSkippedLine line) →
          (LoadConfiguration readFile fileName).1.properties = (fun _ => none)
            ∧ (LoadConfiguration readFile fileName).2 = none) := by
  simp only [LoadConfiguration, loadPropertyFile_ok hread, Configuration.HasKey]
  constructor
  · intro k hk
    obtain ⟨v, hv⟩ := Option.isSome_iff_exists.mp hk
    rcases foldl_loadLine_origin _ _ k v hv with h | ⟨l, hl, he⟩
    · exact absurd h (by simp)
    · exact ⟨l, hl, v, lineEntry_eq_some.mp he⟩
  · intro hskip
    refine ⟨?_, trivial⟩
    funext q
    apply foldl_loadLine_other
    intro l hl v hv
    have := lineEntry_eq_none.mpr (hskip l hl)
    rw [this] at hv
    exact Option.noConfusion hv

/-- C9, witness: a comment, a blank line, a line without `=` and a line with
an empty key part. -/
theorem C9_keys_come_from_lines_witness :
    (∀ k, (LoadConfiguration (fun _ => Except.ok "# comment\n\njust ignore this\n = x".toList)
          "f".toList).1.HasKey k = true →
        ∃ line ∈ Split "# comment\n\njust ignore this\n = x".toList '\n',
          ∃ v, IsKeyValueLine line k v)
      ∧ (LoadConfiguration (fun _ => Except.ok "# comment\n\njust ignore this\n = x".toList)
              "f".toList).1.properties = (fun _ => none)
      ∧ (LoadConfiguration (fun _ => Except.ok "# comment\n\njust ignore this\n = x".toList)
              "f".toList).2 = none :=
  ⟨(C9_keys_come_from_lines (fun _ => Except.ok "# comment\n\njust ignore this\n = x".toList)
      "f".toList "# comment\n\njust ignore this\n = x".toList rfl).1,
   (C9_keys_come_from_lines (fun _ => Except.ok "# comment\n\njust ignore this\n = x".toList)
      "f".toList "# comment\n\njust ignore this\n = x".toList rfl).2 (by decide)⟩

/-- C10: for every key `k` that is non-empty, has no leading or trailing
whitespace, contains no `=` and no newline and does not begin with `#`, every
value `v` with no leading or trailing whitespace and no newline, and all
whitespace strings `w1`, `w2`, `w3`, `w4` without a newline, loading the
one-line content `w1 k w2 = w3 v w4` yields exactly the mapping that sends `k`
to `v` and has no other key, with a nil error. -/
theorem C10_padding_is_trimmed (readFile : GoString → Except GoString GoString)
    (fileName k v w1 w2 w3 w4 : GoString)
    (hk : k ≠ []) (hkt : NoOuterSpace k) (hkeq : '=' ∉ k) (hknl : '\n' ∉ k)
    (hkhash : k.head? ≠ some '#')
    (hvt : NoOuterSpace v) (hvnl : '\n' ∉ v)
    (hw1 : IsWhitespace w1) (hw2 : IsWhitespace w2) (hw3 : IsWhitespace w3)
    (hw4 : IsWhitespace w4)
    (hn1 : '\n' ∉ w1) (hn2 : '\n' ∉ w2) (hn3 : '\n' ∉ w3) (hn4 : '\n' ∉ w4)
    (hread : readFile fileName = Except.ok (w1 ++ k ++ w2 ++ '=' :: (w3 ++ v ++ w4))) :
    (LoadConfiguration readFile fileName).1.properties
        = (fun q => if q = k then some v else none)
      ∧ (LoadConfiguration readFile fileName).2 = none := by
  have hnl : '\n' ∉ w1 ++ k ++ w2 ++ '=' :: (w3 ++ v ++ w4) := by
    simp only [List.mem_append, List.mem_cons, not_or]
    exact ⟨⟨⟨hn1, hknl⟩, hn2⟩, by decide, ⟨hn3, hvnl⟩, hn4⟩
  have he := lineEntry_padded k v w1 w2 w3 w4 hk hkt hkeq hkhash hvt hw1 hw2 hw3 hw4
  simp only [LoadConfiguration, loadPropertyFile_ok hread, Split_of_not_mem _ _ hnl,
    List.foldl_cons, List.foldl_nil, and_true]
  funext q
  rw [loadLine_apply, he]

/-- C10, witness: the line of the test, a tab, `key 3`, a blank, `=`, a blank,
`value  3` with two blanks inside. -/
theorem C10_padding_is_trimmed_witness :
    (LoadConfiguration (fun _ => Except.ok "\tkey 3 = value  3".toList) "f".toList).1.properties
        = (fun q => if q = "key 3".toList then some "value  3".toList else none)
      ∧ (LoadConfiguration (fun _ => Except.ok "\tkey 3 = value  3".toList) "f".toList).2
        = none :=
  C10_padding_is_trimmed (fun _ => Except.ok "\tkey 3 = value  3".toList) "f".toList
    "key 3".toList "value  3".toList "\t".toList " ".toList " ".toList []
    (by decide) (by decide) (by decide) (by decide) (by decide) (by decide) (by decide)
    (by decide) (by decide) (by decide) (by decide) (by decide) (by decide) (by decide)
    (by decide) rfl

/-- C11: for every key/value line, only the first `=` separates key and value
and `#` is a comment marker only as the first character of the trimmed line:
when the trimmed line is `a`, `=`, `rest` with no `=` in `a`, the line is a
key/value line with the trimmed `a` as its key, and the value it stores is the
trimmed text of all of `rest`, whatever further `=` and `#` it holds; this is
the value of the loaded mapping when no later line has the same key. -/
theorem C11_first_eq_separates (line a rest : GoString)
    (htrim : TrimSpace line = a ++ '=' :: rest) (ha : '=' ∉ a)
    (hkey : TrimSpace a ≠ []) (hhash : (TrimSpace line).head? ≠ some '#') :
    IsKeyValueLine line (TrimSpace a) (TrimSpace rest)
      ∧ (∀ m, loadLine m line = Function.update m (TrimSpace a) (some (TrimSpace rest)))
      ∧ (∀ (readFile : GoString → Except GoString GoString) (fileName content : GoString)
          (pre post : List GoString),
          readFile fileName = Except.ok content →
          Split content '\n' = pre ++ line :: post →
          (∀ l ∈ post, lineKey l ≠ some (TrimSpace a)) →
          ∀ d, (LoadConfiguration readFile fileName).1.GetString (TrimSpace a) d
            = TrimSpace rest) := by
  have he := lineEntry_of_first_eq line a rest htrim ha hkey hhash
  refine ⟨lineEntry_eq_some.mp he, ?_, ?_⟩
  · intro m
    rw [loadLine_eq, he]
  · intro readFile fileName content pre post hread hlines hpost d
    simp only [LoadConfiguration, loadPropertyFile_ok hread, hlines, Configuration.GetString]
    rw [foldl_loadLine_last pre post line _ _ _ he
      (fun l hl w hw => hpost l hl (by simp [lineKey, hw]))]

/-- C11, witness: the lines `a = b = c` and `a = 1 # note`. -/
theorem C11_first_eq_separates_witness :
    (∀ d, (LoadConfiguration (fun _ => Except.ok "a = b = c".toList) "f".toList).1.GetString
        "a".toList d = "b = c".toList)
      ∧ (∀ d, (LoadConfiguration (fun _ => Except.ok "a = 1 # note".toList) "f".toList).1.GetString
        "a".toList d = "1 # note".toList) :=
  ⟨(C11_first_eq_separates "a = b = c".toList "a ".toList " b = c".toList
      (by decide) (by decide) (by decide) (by decide)).2.2
      (fun _ => Except.ok "a = b = c".toList) "f".toList "a = b = c".toList [] [] rfl
      (by decide) (by decide),
   (C11_first_eq_separates "a = 1 # note".toList "a ".toList " 1 # note".toList
      (by decide) (by decide) (by decide) (by decide)).2.2
      (fun _ => Except.ok "a = 1 # note".toList) "f".toList "a = 1 # note".toList [] [] rfl
      (by decide) (by decide)⟩

/-- C12: every configuration returned by `LoadConfiguration`, for any content
and also after a failed read, satisfies the invariant: every key and every
value in its mapping is unchanged by whitespace trimming (has no leading or
trailing whitespace), and the empty string is never a key. -/
theorem C12_loaded_invariant (readFile : GoString → Except GoString GoString)
    (fileName k v : GoString)
    (hstored : (LoadConfiguration readFile fileName).1.properties k = some v) :
    TrimSpace k = k ∧ TrimSpace v = v ∧ NoOuterSpace k ∧ NoOuterSpace v ∧ k ≠ [] := by
  obtain ⟨content, -, line, -, he⟩ := loaded_origin readFile fileName k v hstored
  have h := lineEntry_invariant he
  exact ⟨TrimSpace_of_NoOuterSpace k h.1, TrimSpace_of_NoOuterSpace v h.2.1, h.1, h.2.1, h.2.2⟩

/-- C12, witness: the line of the test with a tab before the key and two
blanks inside the value. -/
theorem C12_loaded_invariant_witness :
    TrimSpace "key 3".toList = "key 3".toList ∧ TrimSpace "value  3".toList = "value  3".toList
      ∧ NoOuterSpace "key 3".toList ∧ NoOuterSpace "value  3".toList ∧ "key 3".toList ≠ [] :=
  C12_loaded_invariant (fun _ => Except.ok "\tkey 3 = value  3 \r".toList) "f".toList
    "key 3".toList "value  3".toList (by decide)

/-- C13 (amended): for every key present in the mapping, `GetFloat(key, d)`
returns the parsed number with a nil error when the stored value is a
floating-point literal (optional sign, decimal digits with an optional decimal
point, optional exponent) that is within the range of `float64`, and also when
it is one of the special values `NaN`, `Inf` or `Infinity` (the last two with
an optional sign, all in any mix of case); it returns the default `d` with a
non-nil error when the stored value is such a literal out of the range of
`float64`, and when it is neither such a literal nor a special value, holds no
`_` and has no prefix `0x`. -/
theorem C13_getFloat_literals_and_specials {F : Type} (inf : Bool → F) (nan : F)
    (atofDecimal : GoString → F × Bool) (atofOther : GoString → Option F)
    (fmtFloat : F → GoString) (c : Configuration) (key value : GoString)
    (hstored : c.properties key = some value) :
    (IsFloatLiteral value → (atofDecimal value).2 = false →
        ∀ d, c.GetFloat (ParseFloat inf nan atofDecimal atofOther) fmtFloat key d
          = ((atofDecimal value).1, none))
      ∧ (IsFloatLiteral value → (atofDecimal value).2 = true →
        ∀ d, (c.GetFloat (ParseFloat inf nan atofDecimal atofOther) fmtFloat key d).1 = d
          ∧ (c.GetFloat (ParseFloat inf nan atofDecimal atofOther) fmtFloat key d).2 ≠ none)
      ∧ (value.map lowerASCII = "nan".toList.map Char.toNat →
        ∀ d, c.GetFloat (ParseFloat inf nan atofDecimal atofOther) fmtFloat key d
          = (nan, none))
      ∧ (((stripSign value).map lowerASCII = "inf".toList.map Char.toNat
          ∨ (stripSign value).map lowerASCII = "infinity".toList.map Char.toNat) →
        ∀ d, c.GetFloat (ParseFloat inf nan atofDecimal atofOther) fmtFloat key d
          = (inf (decide (value.head? = some '-')), none))
      ∧ (¬ IsFloatLiteral value → ¬ IsSpecialFloat value → '_' ∉ value →
        hasHexPrefix value = false →
        ∀ d, (c.GetFloat (ParseFloat inf nan atofDecimal atofOther) fmtFloat key d).1 = d
          ∧ (c.GetFloat (ParseFloat inf nan atofDecimal atofOther) fmtFloat key d).2 ≠ none) := by
  refine ⟨?_, ?_, ?_, ?_, ?_⟩
  · intro hlit hfit d
    rw [GetFloat_stored _ _ _ _ _ _ hstored, ParseFloat_literal _ _ _ _ _ hlit, hfit]
    rfl
  · intro hlit hout d
    rw [GetFloat_stored _ _ _ _ _ _ hstored, ParseFloat_literal _ _ _ _ _ hlit, hout]
    simp
  · intro hnan d
    rw [GetFloat_stored _ _ _ _ _ _ hstored, ParseFloat_nan _ _ _ _ _ hnan]
  · intro hinf d
    rw [GetFloat_stored _ _ _ _ _ _ hstored, ParseFloat_inf _ _ _ _ _ hinf]
  · intro hlit hspec hus hhex d
    rw [GetFloat_stored _ _ _ _ _ _ hstored, ParseFloat_reject _ _ _ _ _ hlit hspec hus hhex]
    simp

/-- C13, witness: the three stored values of the test, `874`, `invalid int`
and `3.14`, and the stored value `-iNF`.  The parsed number is shown by its
text, and no literal is out of range. -/
theorem C13_getFloat_literals_and_specials_witness :
    (∀ d, (LoadConfiguration (fun _ => Except.ok "key1=874\nkey2=invalid int\nkey3=3.14".toList)
        "f".toList).1.GetFloat
          (ParseFloat (fun neg => if neg then "-Inf".toList else "+Inf".toList) "NaN".toList
            (fun s => (s, false)) (fun _ => none)) (fun x => x) "key3".toList d
        = ("3.14".toList, none))
      ∧ (∀ d, (LoadConfiguration (fun _ =>
          Except.ok "key1=874\nkey2=invalid int\nkey3=3.14".toList) "f".toList).1.GetFloat
          (ParseFloat (fun neg => if neg then "-Inf".toList else "+Inf".toList) "NaN".toList
            (fun s => (s, false)) (fun _ => none)) (fun x => x) "key1".toList d
        = ("874".toList, none))
      ∧ (∀ d, ((LoadConfiguration (fun _ =>
          Except.ok "key1=874\nkey2=invalid int\nkey3=3.14".toList) "f".toList).1.GetFloat
          (ParseFloat (fun neg => if neg then "-Inf".toList else "+Inf".toList) "NaN".toList
            (fun s => (s, false)) (fun _ => none)) (fun x => x) "key2".toList d).1 = d
        ∧ ((LoadConfiguration (fun _ =>
          Except.ok "key1=874\nkey2=invalid int\nkey3=3.14".toList) "f".toList).1.GetFloat
          (ParseFloat (fun neg => if neg then "-Inf".toList else "+Inf".toList) "NaN".toList
            (fun s => (s, false)) (fun _ => none)) (fun x => x) "key2".toList d).2 ≠ none)
      ∧ (∀ d, (Configuration.mk (fun _ => some "-iNF".toList)).GetFloat
          (ParseFloat (fun neg => if neg then "-Inf".toList else "+Inf".toList) "NaN".toList
            (fun s => (s, false)) (fun _ => none)) (fun x => x) "k".toList d
        = ("-Inf".toList, none)) :=
  ⟨(C13_getFloat_literals_and_specials
      (fun neg => if neg then "-Inf".toList else "+Inf".toList) "NaN".toList
      (fun s => (s, false)) (fun _ => none) (fun x => x)
      (LoadConfiguration (fun _ => Except.ok "key1=874\nkey2=invalid int\nkey3=3.14".toList)
        "f".toList).1 "key3".toList "3.14".toList (by decide)).1 (by decide) rfl,
   (C13_getFloat_literals_and_specials
      (fun neg => if neg then "-Inf".toList else "+Inf".toList) "NaN".toList
      (fun s => (s, false)) (fun _ => none) (fun x => x)
      (LoadConfiguration (fun _ => Except.ok "key1=874\nkey2=invalid int\nkey3=3.14".toList)
        "f".toList).1 "key1".toList "874".toList (by decide)).1 (by decide) rfl,
   (C13_getFloat_literals_and_specials
      (fun neg => if neg then "-Inf".toList else "+Inf".toList) "NaN".toList
      (fun s => (s, false)) (fun _ => none) (fun x => x)
      (LoadConfiguration (fun _ => Except.ok "key1=874\nkey2=invalid int\nkey3=3.14".toList)
        "f".toList).1 "key2".toList "invalid int".toList (by decide)).2.2.2.2
      (by decide) (by decide) (by decide) (by decide),
   (C13_getFloat_literals_and_specials
      (fun neg => if neg then "-Inf".toList else "+Inf".toList) "NaN".toList
      (fun s => (s, false)) (fun _ => none) (fun x => x)
      (Configuration.mk (fun _ => some "-iNF".toList)) "k".toList "-iNF".toList rfl).2.2.2.1
      (by decide)⟩

/-- C13, counterexample: the stored value `NaN` is not a floating-point
literal (sign, digits, decimal point, exponent), yet `GetFloat` returns NaN
with a nil error for it, and not the default with an error. -/
theorem C13_counterexample :
    ¬ IsFloatLiteral "NaN".toList
      ∧ (LoadConfiguration (fun _ => Except.ok "k = NaN".toList) "f".toList).1.properties
          "k".toList = some "NaN".toList
      ∧ (∀ (F : Type) (inf : Bool → F) (nan : F) (atofDecimal : GoString → F × Bool)
          (atofOther : GoString → Option F) (fmtFloat : F → GoString) (d : F),
          (LoadConfiguration (fun _ => Except.ok "k = NaN".toList) "f".toList).1.GetFloat
            (ParseFloat inf nan atofDecimal atofOther) fmtFloat "k".toList d = (nan, none)) := by
  refine ⟨by decide, by decide, ?_⟩
  intro F inf nan atofDecimal atofOther fmtFloat d
  rw [GetFloat_stored _ _ _ "k".toList "NaN".toList d (by decide),
    ParseFloat_nan _ _ _ _ _ (by decide)]

/-- C14: for every file content, loading the content with every line ending
`\n` replaced by `\r\n` yields the same mapping as loading the original
content, with a nil error: the carriage returns are removed by trimming. -/
theorem C14_crlf_same_mapping (readFile : GoString → Except GoString GoString)
    (fileLF fileCRLF content : GoString)
    (hLF : readFile fileLF = Except.ok content)
    (hCRLF : readFile fileCRLF = Except.ok (toCRLF content)) :
    (LoadConfiguration readFile fileCRLF).1.properties
        = (LoadConfiguration readFile fileLF).1.properties
      ∧ (LoadConfiguration readFile fileCRLF).2 = none := by
  simp only [LoadConfiguration, loadPropertyFile_ok hLF, loadPropertyFile_ok hCRLF, and_true]
  exact foldl_loadLine_congr _ _ _ (Split_toCRLF content)

/-- C14, witness: two lines ended by `\n`, stored as `unix.cfg`, and the same
lines ended by `\r\n`, stored as `dos.cfg`. -/
theorem C14_crlf_same_mapping_witness :
    (LoadConfiguration (fun f => if f = "dos.cfg".toList then Except.ok "a=1\r\nb = 2\r\n".toList
        else Except.ok "a=1\nb = 2\n".toList) "dos.cfg".toList).1.properties
      = (LoadConfiguration (fun f => if f = "dos.cfg".toList then
          Except.ok "a=1\r\nb = 2\r\n".toList
        else Except.ok "a=1\nb = 2\n".toList) "unix.cfg".toList).1.properties
      ∧ (LoadConfiguration (fun f => if f = "dos.cfg".toList then
          Except.ok "a=1\r\nb = 2\r\n".toList
        else Except.ok "a=1\nb = 2\n".toList) "dos.cfg".toList).2 = none :=
  C14_crlf_same_mapping (fun f => if f = "dos.cfg".toList then Except.ok "a=1\r\nb = 2\r\n".toList
        else Except.ok "a=1\nb = 2\n".toList) "unix.cfg".toList "dos.cfg".toList
    "a=1\nb = 2\n".toList rfl rfl

/-- C15: the conversion error names the key and the substituted default: when
the stored value is not a signed decimal literal that fits in `int`, the error
text of `GetInt(key, d)` is `property <key> does not have a valid integer
value. Using default <d>` with `d` in decimal (a decimal literal that denotes
`d`), and when the stored value matches no token the error text of
`GetBool(key, d)` is `property <key> does not have a valid bool value. Using
default <d>` with `d` written `true` or `false`. -/
theorem C15_error_texts (intSize : Nat) (hsize : intSize = 32 ∨ intSize = 64)
    (orbit : Char → Char → Bool) (c : Configuration) (key value : GoString)
    (hstored : c.properties key = some value) :
    ((¬ IsIntLiteral value ∨ ¬ FitsInt intSize (literalValue value)) →
        ∀ d, (c.GetInt intSize key d).2 = some ("property ".toList ++ key
          ++ " does not have a valid integer value. Using default ".toList ++ Itoa d)
          ∧ IsIntLiteral (Itoa d) ∧ literalValue (Itoa d) = d)
      ∧ ((∀ tok ∈ boolTrueValues ++ boolFalseValues, ¬ EqUnderFold value tok) →
        ∀ d, (c.GetBool orbit key d).2 = some ("property ".toList ++ key
          ++ " does not have a valid bool value. Using default ".toList
          ++ (if d = true then "true".toList else "false".toList))) := by
  constructor
  · intro hbad d
    have herr : (Atoi intSize value).2 ≠ none := by
      by_cases hlit : IsIntLiteral value
      · rcases hbad with h | h
        · exact absurd hlit h
        · rw [Atoi_literal _ hsize _ hlit, if_neg h]
          split_ifs <;> simp
      · exact Atoi_not_literal _ hsize _ hlit
    rw [GetInt_stored _ _ _ _ _ hstored, if_pos herr]
    exact ⟨rfl, Itoa_literal d⟩
  · intro hnone d
    have h1 : ¬ ∃ tok ∈ boolTrueValues, EqUnderFold value tok := by
      rintro ⟨tok, htok, he⟩
      exact hnone tok (List.mem_append_left _ htok) he
    have h2 : ¬ ∃ tok ∈ boolFalseValues, EqUnderFold value tok := by
      rintro ⟨tok, htok, he⟩
      exact hnone tok (List.mem_append_right _ htok) he
    rw [GetBool_stored orbit c key value d hstored, if_neg h1, if_neg h2]
    cases d <;> rfl

/-- C15, witness: the texts for the key `key2` holding `invalid int`, read
with the defaults `3` and `true`. -/
theorem C15_error_texts_witness :
    ((Configuration.mk (fun _ => some "invalid int".toList)).GetInt 64 "key2".toList 3).2
        = some "property key2 does not have a valid integer value. Using default 3".toList
      ∧ ((Configuration.mk (fun _ => some "invalid int".toList)).GetBool (fun _ _ => false)
          "key2".toList true).2
        = some "property key2 does not have a valid bool value. Using default true".toList := by
  have h := C15_error_texts 64 (Or.inr rfl) (fun _ _ => false)
    (Configuration.mk (fun _ => some "invalid int".toList)) "key2".toList "invalid int".toList rfl
  refine ⟨?_, ?_⟩
  · rw [(h.1 (Or.inl (by decide)) 3).1]
    simp [Itoa, digitChar]
  · rw [h.2 (by decide) true]
    rfl

/-- C16: the two boolean token sets are disjoint under the comparison
`GetBool` uses: no string matches under `strings.EqualFold` both a token of
`boolTrueValues` and a token of `boolFalseValues`, so `GetBool` returns the
same as the function that tests the FALSE tokens before the TRUE tokens. -/
theorem C16_token_sets_disjoint (orbit : Char → Char → Bool) :
    (∀ value, ¬ ((∃ t ∈ boolTrueValues, EqualFold orbit value t = true)
        ∧ (∃ f ∈ boolFalseValues, EqualFold orbit value f = true)))
      ∧ (∀ (c : Configuration) key d, c.GetBool orbit key d = GetBoolFalseFirst orbit c key d) := by
  constructor
  · rintro value ⟨⟨t, ht, het⟩, ⟨f, hf, hef⟩⟩
    exact not_both_token_sets orbit value
      ⟨List.any_eq_true.mpr ⟨t, ht, het⟩, List.any_eq_true.mpr ⟨f, hf, hef⟩⟩
  · intro c key d
    unfold Configuration.GetBool GetBoolFalseFirst
    cases c.properties key with
    | none => rfl
    | some value =>
      have hnot := not_both_token_sets orbit value
      by_cases h1 : boolTrueValues.any (fun tok => EqualFold orbit value tok) = true
      · have h2 : ¬ boolFalseValues.any (fun tok => EqualFold orbit value tok) = true :=
          fun h2 => hnot ⟨h1, h2⟩
        simp [h1, h2]
      · by_cases h2 : boolFalseValues.any (fun tok => EqualFold orbit value tok) = true
        · simp [h1, h2]
        · simp [h1, h2]

/-- C17: loading distributes over joining files with a newline: for all
contents `a` and `b`, in the mapping loaded from `a`, newline, `b` every key of
the mapping loaded from `b` has the value `b` gives it, and every other key
has what the mapping loaded from `a` gives it (its value there, or no value). -/
theorem C17_load_of_joined_contents (readFile : GoString → Except GoString GoString)
    (fileA fileB fileAB a b : GoString)
    (hA : readFile fileA = Except.ok a) (hB : readFile fileB = Except.ok b)
    (hAB : readFile fileAB = Except.ok (a ++ '\n' :: b)) :
    (∀ q v, (LoadConfiguration readFile fileB).1.properties q = some v →
        (LoadConfiguration readFile fileAB).1.properties q = some v)
      ∧ (∀ q, (LoadConfiguration readFile fileB).1.properties q = none →
        (LoadConfiguration readFile fileAB).1.properties q
          = (LoadConfiguration readFile fileA).1.properties q) := by
  simp only [LoadConfiguration, loadPropertyFile_ok hA, loadPropertyFile_ok hB,
    loadPropertyFile_ok hAB, Split_join, List.foldl_append]
  constructor
  · intro q v hq
    rw [foldl_loadLine_override, hq]
  · intro q hq
    rw [foldl_loadLine_override, hq]

/-- C17, witness: `a` holds the keys `x` and `y`, `b` holds `y` and `z`. -/
theorem C17_load_of_joined_contents_witness :
    (LoadConfiguration (fun f => if f = "a".toList then Except.ok "x=1\ny=2".toList
        else if f = "b".toList then Except.ok "y=3\nz=4".toList
        else Except.ok "x=1\ny=2\ny=3\nz=4".toList) "ab".toList).1.properties "y".toList
        = some "3".toList
      ∧ (LoadConfiguration (fun f => if f = "a".toList then Except.ok "x=1\ny=2".toList
        else if f = "b".toList then Except.ok "y=3\nz=4".toList
        else Except.ok "x=1\ny=2\ny=3\nz=4".toList) "ab".toList).1.properties "x".toList
        = (LoadConfiguration (fun f => if f = "a".toList then Except.ok "x=1\ny=2".toList
        else if f = "b".toList then Except.ok "y=3\nz=4".toList
        else Except.ok "x=1\ny=2\ny=3\nz=4".toList) "a".toList).1.properties "x".toList :=
  ⟨(C17_load_of_joined_contents (fun f => if f = "a".toList then Except.ok "x=1\ny=2".toList
        else if f = "b".toList then Except.ok "y=3\nz=4".toList
        else Except.ok "x=1\ny=2\ny=3\nz=4".toList) "a".toList "b".toList "ab".toList
      "x=1\ny=2".toList "y=3\nz=4".toList rfl rfl rfl).1
      "y".toList "3".toList (by decide),
   (C17_load_of_joined_contents (fun f => if f = "a".toList then Except.ok "x=1\ny=2".toList
        else if f = "b".toList then Except.ok "y=3\nz=4".toList
        else Except.ok "x=1\ny=2\ny=3\nz=4".toList) "a".toList "b".toList "ab".toList
      "x=1\ny=2".toList "y=3\nz=4".toList rfl rfl rfl).2
      "x".toList (by decide)⟩

/-- C18: no key of a loaded mapping contains `=` or a newline and none begins
with `#`, and no stored value contains a newline; hence for every loaded
configuration `HasKey(q)` is false for every query `q` that is empty, has
leading or trailing whitespace, contains `=` or a newline, or begins with `#`. -/
theorem C18_key_and_value_characters (readFile : GoString → Except GoString GoString)
    (fileName : GoString) :
    (∀ k v, (LoadConfiguration readFile fileName).1.properties k = some v →
        '=' ∉ k ∧ '\n' ∉ k ∧ k.head? ≠ some '#' ∧ '\n' ∉ v)
      ∧ (∀ q, (q = [] ∨ ¬ NoOuterSpace q ∨ '=' ∈ q ∨ '\n' ∈ q ∨ q.head? = some '#') →
        (LoadConfiguration readFile fileName).1.HasKey q = false) := by
  have key : ∀ k v, (LoadConfiguration readFile fileName).1.properties k = some v →
      ('=' ∉ k ∧ '\n' ∉ k ∧ k.head? ≠ some '#' ∧ '\n' ∉ v) ∧ NoOuterSpace k ∧ k ≠ [] := by
    intro k v h
    obtain ⟨content, -, line, hl, he⟩ := loaded_origin readFile fileName k v h
    have hinv := lineEntry_invariant he
    exact ⟨lineEntry_chars he (not_mem_of_mem_Split content '\n' line hl), hinv.1, hinv.2.2⟩
  refine ⟨fun k v h => (key k v h).1, ?_⟩
  intro q hq
  cases hp : (LoadConfiguration readFile fileName).1.properties q with
  | none => simp [Configuration.HasKey, hp]
  | some v =>
    exfalso
    have h := key q v hp
    rcases hq with h1 | h1 | h1 | h1 | h1
    · exact h.2.2 h1
    · exact h1 h.2.1
    · exact h.1.1 h1
    · exact h.1.2.1 h1
    · exact h.1.2.2.1 h1

/-- C18, witness: `HasKey` does not trim its argument, and a commented line
gives no key. -/
theorem C18_key_and_value_characters_witness :
    (LoadConfiguration (fun _ => Except.ok "key1 = a\n#key2 = b".toList) "f".toList).1.HasKey
        " key1".toList = false
      ∧ (LoadConfiguration (fun _ => Except.ok "key1 = a\n#key2 = b".toList) "f".toList).1.HasKey
        "#key2".toList = false :=
  ⟨(C18_key_and_value_characters (fun _ => Except.ok "key1 = a\n#key2 = b".toList)
      "f".toList).2 " key1".toList (by decide),
   (C18_key_and_value_characters (fun _ => Except.ok "key1 = a\n#key2 = b".toList)
      "f".toList).2 "#key2".toList (by decide)⟩

/-- C19: for every key present in the mapping whose stored value is a
well-formed signed decimal integer that lies outside the range of the `int`
type (above the maximum or below the minimum `int`), `GetInt(key, d)` returns
the default `d` with a non-nil error, and so never a wrapped or truncated
number. -/
theorem C19_getInt_out_of_range (intSize : Nat) (hsize : intSize = 32 ∨ intSize = 64)
    (c : Configuration) (key value : GoString) (hstored : c.properties key = some value)
    (hlit : IsIntLiteral value) (hout : ¬ FitsInt intSize (literalValue value)) :
    ∀ d, (c.GetInt intSize key d).1 = d ∧ (c.GetInt intSize key d).2 ≠ none := by
  intro d
  have herr : (Atoi intSize value).2 ≠ none := by
    rw [Atoi_literal _ hsize _ hlit, if_neg hout]
    split_ifs <;> simp
  rw [GetInt_stored _ _ _ _ _ hstored, if_pos herr]
  simp

/-- C19, witness: one more than the largest 64-bit `int`, one less than the
smallest 32-bit `int`, and a number of forty digits. -/
theorem C19_getInt_out_of_range_witness :
    (∀ d, ((Configuration.mk (fun _ => some "9223372036854775808".toList)).GetInt 64
          "k".toList d).1 = d
        ∧ ((Configuration.mk (fun _ => some "9223372036854775808".toList)).GetInt 64
          "k".toList d).2 ≠ none)
      ∧ (∀ d, ((Configuration.mk (fun _ => some "-2147483649".toList)).GetInt 32
          "k".toList d).1 = d
        ∧ ((Configuration.mk (fun _ => some "-2147483649".toList)).GetInt 32
          "k".toList d).2 ≠ none)
      ∧ (∀ d, ((Configuration.mk (fun _ =>
            some "1000000000000000000000000000000000000000".toList)).GetInt 64
          "k".toList d).1 = d
        ∧ ((Configuration.mk (fun _ =>
            some "1000000000000000000000000000000000000000".toList)).GetInt 64
          "k".toList d).2 ≠ none) :=
  ⟨C19_getInt_out_of_range 64 (Or.inr rfl)
      (Configuration.mk (fun _ => some "9223372036854775808".toList)) "k".toList
      "9223372036854775808".toList rfl (by decide) (by decide),
   C19_getInt_out_of_range 32 (Or.inl rfl)
      (Configuration.mk (fun _ => some "-2147483649".toList)) "k".toList
      "-2147483649".toList rfl (by decide) (by decide),
   C19_getInt_out_of_range 64 (Or.inr rfl)
      (Configuration.mk (fun _ => some "1000000000000000000000000000000000000000".toList))
      "k".toList "1000000000000000000000000000000000000000".toList rfl (by decide) (by decide)⟩

/-- C20: a line with a key and an empty value is stored, not skipped: for
every valid key `k` (non-empty, without leading or trailing whitespace,
without `=`, not beginning with `#`), after loading a content whose last line
for `k` is `k` followed by `=` and only whitespace, `HasKey(k)` is true,
`GetString(k, d)` is the empty string for every `d`, and `GetInt(k, d)` and
`GetBool(k, d)` each return the default `d` with a non-nil error. -/
theorem C20_empty_value_is_stored (intSize : Nat) (hsize : intSize = 32 ∨ intSize = 64)
    (orbit : Char → Char → Bool) (readFile : GoString → Except GoString GoString)
    (fileName content : GoString) (pre post : List GoString) (k w : GoString)
    (hk : k ≠ []) (hkt : NoOuterSpace k) (hkeq : '=' ∉ k) (hkhash : k.head? ≠ some '#')
    (hw : IsWhitespace w)
    (hread : readFile fileName = Except.ok content)
    (hlines : Split content '\n' = pre ++ (k ++ '=' :: w) :: post)
    (hlast : ∀ l ∈ post, lineKey l ≠ some k) :
    (LoadConfiguration readFile fileName).1.HasKey k = true
      ∧ (∀ d, (LoadConfiguration readFile fileName).1.GetString k d = [])
      ∧ (∀ d, ((LoadConfiguration readFile fileName).1.GetInt intSize k d).1 = d
          ∧ ((LoadConfiguration readFile fileName).1.GetInt intSize k d).2 ≠ none)
      ∧ (∀ d, ((LoadConfiguration readFile fileName).1.GetBool orbit k d).1 = d
          ∧ ((LoadConfiguration readFile fileName).1.GetBool orbit k d).2 ≠ none) := by
  have he : lineEntry (k ++ '=' :: w) = some (k, []) := by
    have := lineEntry_padded k [] [] [] w [] hk hkt hkeq hkhash
      ⟨fun c hc => Option.noConfusion hc, fun c hc => Option.noConfusion hc⟩
      (by simp [IsWhitespace]) (by simp [IsWhitespace]) hw (by simp [IsWhitespace])
    simpa using this
  have hstored : (LoadConfiguration readFile fileName).1.properties k = some [] := by
    simp only [LoadConfiguration, loadPropertyFile_ok hread, hlines]
    exact foldl_loadLine_last pre post _ _ k [] he
      (fun l hl v hv => hlast l hl (by simp [lineKey, hv]))
  refine ⟨by simp [Configuration.HasKey, hstored],
    fun d => by simp [Configuration.GetString, hstored], ?_, ?_⟩
  · intro d
    have herr : (Atoi intSize []).2 ≠ none := Atoi_not_literal _ hsize [] (by decide)
    rw [GetInt_stored _ _ _ _ _ hstored, if_pos herr]
    simp
  · intro d
    have h1 : ¬ ∃ tok ∈ boolTrueValues, EqUnderFold [] tok := by
      rintro ⟨tok, htok, h⟩
      exact not_EqUnderFold_nil tok (List.mem_append_left _ htok) h
    have h2 : ¬ ∃ tok ∈ boolFalseValues, EqUnderFold [] tok := by
      rintro ⟨tok, htok, h⟩
      exact not_EqUnderFold_nil tok (List.mem_append_right _ htok) h
    rw [GetBool_stored orbit _ k [] d hstored, if_neg h1, if_neg h2]
    simp

/-- C20, witness: the key `a` first with a value, then with none. -/
theorem C20_empty_value_is_stored_witness :
    (LoadConfiguration (fun _ => Except.ok "a=1\na= \t\nb=2".toList) "f".toList).1.HasKey
        "a".toList = true
      ∧ (∀ d, (LoadConfiguration (fun _ => Except.ok "a=1\na= \t\nb=2".toList)
          "f".toList).1.GetString "a".toList d = [])
      ∧ (∀ d, ((LoadConfiguration (fun _ => Except.ok "a=1\na= \t\nb=2".toList)
          "f".toList).1.GetInt 64 "a".toList d).1 = d
          ∧ ((LoadConfiguration (fun _ => Except.ok "a=1\na= \t\nb=2".toList)
          "f".toList).1.GetInt 64 "a".toList d).2 ≠ none)
      ∧ (∀ d, ((LoadConfiguration (fun _ => Except.ok "a=1\na= \t\nb=2".toList)
          "f".toList).1.GetBool (fun _ _ => false) "a".toList d).1 = d
          ∧ ((LoadConfiguration (fun _ => Except.ok "a=1\na= \t\nb=2".toList)
          "f".toList).1.GetBool (fun _ _ => false) "a".toList d).2 ≠ none) :=
  C20_empty_value_is_stored 64 (Or.inr rfl) (fun _ _ => false)
    (fun _ => Except.ok "a=1\na= \t\nb=2".toList) "f".toList "a=1\na= \t\nb=2".toList
    ["a=1".toList] ["b=2".toList] "a".toList " \t".toList
    (by decide) (by decide) (by decide) (by decide) (by decide) rfl (by decide) (by decide)

end Gocfg
